import Mathlib

/-!
Shallow embedding of the Vending-Bench simulation engine
(`src/environment.py`, `src/tools.py`, `src/products.py`, `src/suppliers.py`,
`config/simulation_config.py`, and the weekly-charge driver in
`tasks/baseline_task.py`).

Monetary amounts (Python floats) are modelled as exact rationals `ℚ`;
Python ints as `ℤ` (or `ℕ` where the source validates positivity at the
boundary).  LLM-driven parts (email text generation) and pseudo-random draws
(`random.random()`, demand noise) are modelled as explicit oracle parameters.
-/

namespace VendingBench

/-- The four products of `PRODUCT_CATALOG` in `src/products.py`. -/
inductive Product where
  | coffee
  | chocolate
  | chips
  | soda
deriving DecidableEq, Repr

/-- The two machine size classes. -/
inductive Size where
  | small
  | large
deriving DecidableEq, Repr

/-- `PRODUCT_CATALOG[p]["supplier_cost"]`. -/
def catalog_supplier_cost : Product → ℚ
  | .coffee => 3/2
  | .chocolate => 3/4
  | .chips => 1/2
  | .soda => 3/5

/-- `PRODUCT_CATALOG[p]["typical_retail"]`. -/
def catalog_typical_retail : Product → ℚ
  | .coffee => 3
  | .chocolate => 2
  | .chips => 3/2
  | .soda => 5/2

/-- `PRODUCT_CATALOG[p]["spoilage_days"]`. -/
def catalog_spoilage_days : Product → ℤ
  | .coffee => 7
  | .chocolate => 90
  | .chips => 60
  | .soda => 180

/-- `PRODUCT_CATALOG[p]["size"]`. -/
def catalog_size : Product → Size
  | .coffee => .large
  | .chocolate => .small
  | .chips => .small
  | .soda => .large

/-- Iteration order of `PRODUCT_CATALOG` (Python dict insertion order). -/
def catalog_order : List Product :=
  [.coffee, .chocolate, .chips, .soda]

/-- `MACHINE_CONFIG["small_slots"]`. -/
def machine_small_slots_max : ℤ := 6

/-- `MACHINE_CONFIG["large_slots"]`. -/
def machine_large_slots_max : ℤ := 6

/-- `InventoryItem` of `src/environment.py` (the textual `notes` are dropped
as irrelevant to all stated properties). -/
structure InventoryItem where
  product : Product
  quantity : ℤ
  purchase_date : ℤ
  supplier_cost : ℚ
  expiration_day : Option ℤ
deriving DecidableEq, Repr

/-- `InventoryItem.is_expired`. -/
def InventoryItem.is_expired (it : InventoryItem) (current_day : ℤ) : Bool :=
  match it.expiration_day with
  | none => false
  | some e => decide (e ≤ current_day)

/-- The `transaction_type` strings used by the engine. -/
inductive TransactionType where
  | sale
  | purchase
  | spoilage
  | fee
  | supplier_payment
  | token_cost
deriving DecidableEq, Repr

/-- `Transaction` of `src/environment.py` (`notes` dropped). -/
structure Transaction where
  day : ℤ
  transaction_type : TransactionType
  product : Option Product
  quantity : ℤ
  amount : ℚ
  balance_after : ℚ
deriving DecidableEq, Repr

/-- `PendingOrder` of `src/environment.py` (the random `order_id` string is
dropped). -/
structure PendingOrder where
  product : Product
  quantity : ℤ
  supplier_cost : ℚ
  order_day : ℤ
  delivery_day : ℤ
  total_cost : ℚ
deriving DecidableEq, Repr

/-- `SimulationConfig` of `config/simulation_config.py` (the fields the engine
reads). -/
structure SimulationConfig where
  simulation_days : ℤ
  starting_cash : ℚ
  daily_fee : ℚ
  starting_inventory_units : ℤ
deriving DecidableEq, Repr

/-- The default configuration `DEFAULT_CONFIG`. -/
def default_config : SimulationConfig :=
  { simulation_days := 365
    starting_cash := 500
    daily_fee := 2
    starting_inventory_units := 20 }

/-- `Supplier` of `src/suppliers.py` (the fields the payment path reads). -/
structure Supplier where
  reliability : ℚ
  delivery_days : ℤ
  response_delay_days : ℤ
  min_order_quantity : ℤ
deriving DecidableEq, Repr

/-- `SUPPLIER_CATALOG` of `src/suppliers.py`. -/
def supplier_catalog : List Supplier :=
  [ { reliability := 95/100, delivery_days := 2, response_delay_days := 1, min_order_quantity := 10 }
  , { reliability := 90/100, delivery_days := 3, response_delay_days := 1, min_order_quantity := 20 }
  , { reliability := 20/100, delivery_days := 5, response_delay_days := 1, min_order_quantity := 5 }
  , { reliability := 85/100, delivery_days := 2, response_delay_days := 1, min_order_quantity := 10 } ]

/-- `VendingEnvironment` mutable state (`src/environment.py` constructor);
logging-only fields (`daily_reports`, `message_count`, email text) are
omitted. -/
structure VendingEnvironment where
  config : SimulationConfig
  current_day : ℤ
  cash_balance : ℚ
  is_complete : Bool
  storage_inventory : Product → List InventoryItem
  machine_inventory : Product → ℤ
  machine_small_slots_used : ℤ
  machine_large_slots_used : ℤ
  current_prices : Product → ℚ
  transaction_history : List Transaction
  pending_orders : List PendingOrder
  consecutive_bankrupt_days : ℤ
  accumulated_output_tokens : ℤ
  total_token_costs : ℚ
  last_token_charge_day : ℤ

/-- `bankruptcy_threshold` (10 consecutive unpaid days terminate). -/
def bankruptcy_threshold : ℤ := 10

/-- `token_cost_per_million` ($100 per million output tokens). -/
def token_cost_per_million : ℚ := 100

/-- `_initialize_starter_inventory`: one starter lot per product, bought on
day 0 at wholesale cost, expiring after the product's spoilage window. -/
def starter_inventory (units : ℤ) : Product → List InventoryItem :=
  fun p =>
    [ { product := p
        quantity := units
        purchase_date := 0
        supplier_cost := catalog_supplier_cost p
        expiration_day := some (catalog_spoilage_days p) } ]

/-- `VendingEnvironment.__init__`. -/
def VendingEnvironment.init (cfg : SimulationConfig) : VendingEnvironment :=
  { config := cfg
    current_day := 0
    cash_balance := cfg.starting_cash
    is_complete := false
    storage_inventory :=
      if 0 < cfg.starting_inventory_units then starter_inventory cfg.starting_inventory_units
      else fun _ => []
    machine_inventory := fun _ => 0
    machine_small_slots_used := 0
    machine_large_slots_used := 0
    current_prices := catalog_typical_retail
    transaction_history := []
    pending_orders := []
    consecutive_bankrupt_days := 0
    accumulated_output_tokens := 0
    total_token_costs := 0
    last_token_charge_day := 0 }

/-- `_record_transaction`: append a ledger entry carrying the current cash
balance. -/
def record_transaction (env : VendingEnvironment) (ty : TransactionType)
    (product : Option Product) (quantity : ℤ) (amount : ℚ) : VendingEnvironment :=
  { env with
    transaction_history := env.transaction_history ++
      [ { day := env.current_day
          transaction_type := ty
          product := product
          quantity := quantity
          amount := amount
          balance_after := env.cash_balance } ] }

/-- The source pattern "mutate `cash_balance` by `amount`, then
`_record_transaction(amount)`" shared by sales, purchases, fees, supplier
payments and token charges. -/
def cash_mutate_and_record (env : VendingEnvironment) (ty : TransactionType)
    (product : Option Product) (quantity : ℤ) (amount : ℚ) : VendingEnvironment :=
  record_transaction { env with cash_balance := env.cash_balance + amount } ty product quantity amount

/-- `VendingEnvironment.add_to_machine`. -/
def add_to_machine (env : VendingEnvironment) (p : Product) (quantity : ℤ) : VendingEnvironment :=
  let env :=
    match catalog_size p with
    | .small => { env with machine_small_slots_used := env.machine_small_slots_used + quantity }
    | .large => { env with machine_large_slots_used := env.machine_large_slots_used + quantity }
  { env with machine_inventory := Function.update env.machine_inventory p (env.machine_inventory p + quantity) }

/-- `VendingEnvironment.remove_from_machine`: slot counters and the per-product
count are clamped at 0 with `max(0, ...)`. -/
def remove_from_machine (env : VendingEnvironment) (p : Product) (quantity : ℤ) : VendingEnvironment :=
  let env :=
    match catalog_size p with
    | .small => { env with machine_small_slots_used := max 0 (env.machine_small_slots_used - quantity) }
    | .large => { env with machine_large_slots_used := max 0 (env.machine_large_slots_used - quantity) }
  { env with machine_inventory := Function.update env.machine_inventory p (max 0 (env.machine_inventory p - quantity)) }

/-- Free slots of `p`'s size class, as read by `can_stock_product`. -/
def free_slots (env : VendingEnvironment) (p : Product) : ℤ :=
  match catalog_size p with
  | .small => machine_small_slots_max - env.machine_small_slots_used
  | .large => machine_large_slots_max - env.machine_large_slots_used

/-- `VendingEnvironment.can_stock_product`: `(can_stock, max_stockable)`. -/
def can_stock_product (env : VendingEnvironment) (p : Product) (quantity : ℤ) : Bool × ℤ :=
  let available := free_slots env p
  if quantity ≤ available then (true, quantity)
  else if 0 < available then (false, available)
  else (false, 0)

/-- Sum of lot quantities of one product's storage list. -/
def total_quantity (items : List InventoryItem) : ℤ :=
  (items.map (·.quantity)).sum

/-- The FIFO loop of `VendingTools.stock_machine`: walk the storage lots in
list order, consuming whole lots while they fit in the remaining request and
splitting the first lot that does not; fully consumed lots are removed. -/
def fifo_consume_lots : List InventoryItem → ℤ → List InventoryItem
  | [], _ => []
  | it :: rest, remaining =>
    if remaining ≤ 0 then it :: rest
    else if it.quantity ≤ remaining then fifo_consume_lots rest (remaining - it.quantity)
    else { it with quantity := it.quantity - remaining } :: rest

/-- Result of `VendingTools.stock_machine`. -/
inductive StockResult where
  | ok
  | errNonpositiveQuantity
  | errCapacity (max_stockable : ℤ)
  | errStorage (available : ℤ) (requested : ℤ)
deriving DecidableEq, Repr

/-- `VendingTools.stock_machine`: validate the quantity, check slot capacity,
check storage availability, then move lots FIFO into the machine. -/
def stock_machine (env : VendingEnvironment) (p : Product) (quantity : ℤ) :
    StockResult × VendingEnvironment :=
  if quantity ≤ 0 then (.errNonpositiveQuantity, env)
  else
    let check := can_stock_product env p quantity
    if check.1 = false then (.errCapacity check.2, env)
    else
      let total_in_storage := total_quantity (env.storage_inventory p)
      if total_in_storage < quantity then (.errStorage total_in_storage quantity, env)
      else
        let env' := { env with
          storage_inventory :=
            Function.update env.storage_inventory p (fifo_consume_lots (env.storage_inventory p) quantity) }
        (.ok, add_to_machine env' p quantity)

/-- `DELIVERY_DELAY_DAYS` of `src/tools.py`. -/
def delivery_delay_days : ℤ := 3

/-- Result of `VendingTools.order_inventory`. -/
inductive OrderResult where
  | ok
  | errNonpositiveQuantity
  | errInsufficientFunds
deriving DecidableEq, Repr

/-- `VendingTools.order_inventory`: pay `quantity × catalog_unit_cost` up
front and enqueue a `PendingOrder` due in `DELIVERY_DELAY_DAYS` days. -/
def order_inventory (env : VendingEnvironment) (p : Product) (quantity : ℤ) :
    OrderResult × VendingEnvironment :=
  if quantity ≤ 0 then (.errNonpositiveQuantity, env)
  else
    let total_cost := quantity * catalog_supplier_cost p
    if env.cash_balance < total_cost then (.errInsufficientFunds, env)
    else
      let delivery_day := env.current_day + delivery_delay_days
      let env := { env with cash_balance := env.cash_balance - total_cost }
      let env := { env with pending_orders := env.pending_orders ++
        [ { product := p
            quantity := quantity
            supplier_cost := catalog_supplier_cost p
            order_day := env.current_day
            delivery_day := delivery_day
            total_cost := total_cost } ] }
      (.ok, record_transaction env .purchase (some p) quantity (-total_cost))

/-- Result of `VendingEnvironment.process_supplier_payment`. -/
inductive PayResult where
  | ok (expected_delivery_day : ℤ)
  | errInsufficientFunds
deriving DecidableEq, Repr

/-- `VendingEnvironment.process_supplier_payment`, with the `random.random()`
reliability draw passed in as the oracle `r ∈ [0, 1)`: the payment is deducted
once validated; pending orders are created only when `r < reliability`. -/
def process_supplier_payment (env : VendingEnvironment) (s : Supplier) (amount : ℚ)
    (products : List (Product × ℕ)) (r : ℚ) : PayResult × VendingEnvironment :=
  if env.cash_balance < amount then (.errInsufficientFunds, env)
  else
    let total_units : ℤ := (products.map (fun q => (q.2 : ℤ))).sum
    let env := cash_mutate_and_record env .supplier_payment none total_units (-amount)
    let will_deliver := decide (r < s.reliability)
    let delivery_day := env.current_day + s.delivery_days
    if will_deliver then
      let unit_cost := amount / total_units
      let new_orders := products.map (fun q =>
        { product := q.1
          quantity := (q.2 : ℤ)
          supplier_cost := unit_cost
          order_day := env.current_day
          delivery_day := delivery_day
          total_cost := unit_cost * (q.2 : ℤ) : PendingOrder })
      let env := { env with pending_orders := env.pending_orders ++ new_orders }
      (.ok delivery_day, env)
    else
      (.ok delivery_day, env)

/-- `VendingEnvironment.add_output_tokens`. -/
def add_output_tokens (env : VendingEnvironment) (tokens : ℕ) : VendingEnvironment :=
  { env with accumulated_output_tokens := env.accumulated_output_tokens + tokens }

/-- `VendingEnvironment.process_weekly_token_charge`: no-op until a full week
has passed since the last charge; then charge `$100` per million accumulated
output tokens (recording a transaction only for a positive cost) and reset the
accumulator. -/
def process_weekly_token_charge (env : VendingEnvironment) : VendingEnvironment :=
  if env.current_day - env.last_token_charge_day < 7 then env
  else
    let cost := env.accumulated_output_tokens / 1000000 * token_cost_per_million
    let env :=
      if 0 < cost then
        let env := cash_mutate_and_record env .token_cost none env.accumulated_output_tokens (-cost)
        { env with total_token_costs := env.total_token_costs + cost }
      else env
    { env with
      accumulated_output_tokens := 0
      last_token_charge_day := env.current_day }

/-- `VendingTools.set_price`. -/
def set_price (env : VendingEnvironment) (p : Product) (price : ℚ) : VendingEnvironment :=
  if price ≤ 0 then env
  else { env with current_prices := Function.update env.current_prices p price }

/-- The lot `_process_deliveries` creates for an arrived order: bought today,
expiring one spoilage window from today. -/
def delivered_lot (day : ℤ) (o : PendingOrder) : InventoryItem :=
  { product := o.product
    quantity := o.quantity
    purchase_date := day
    supplier_cost := o.supplier_cost
    expiration_day := some (day + catalog_spoilage_days o.product) }

/-- The loop of `_process_deliveries`: arrived orders (`delivery_day ≤ today`)
are appended to their product's storage list; the rest are kept in order. -/
def deliver_loop (day : ℤ) :
    List PendingOrder → (Product → List InventoryItem) →
    (Product → List InventoryItem) × List PendingOrder
  | [], st => (st, [])
  | o :: rest, st =>
    if o.delivery_day ≤ day then
      deliver_loop day rest (Function.update st o.product (st o.product ++ [delivered_lot day o]))
    else
      let r := deliver_loop day rest st
      (r.1, o :: r.2)

/-- `VendingEnvironment._process_deliveries`. -/
def process_deliveries (env : VendingEnvironment) : VendingEnvironment :=
  let r := deliver_loop env.current_day env.pending_orders env.storage_inventory
  { env with storage_inventory := r.1, pending_orders := r.2 }

/-- `VendingEnvironment._charge_daily_fee`: the fee is deducted even when the
balance goes negative; the bankruptcy streak grows exactly when the pre-charge
balance could not cover the fee.  Returns the environment and the
"terminate" flag (streak at the threshold). -/
def charge_daily_fee (env : VendingEnvironment) : VendingEnvironment × Bool :=
  let can_pay := decide (env.config.daily_fee ≤ env.cash_balance)
  let env := cash_mutate_and_record env .fee none 1 (-env.config.daily_fee)
  let env := { env with
    consecutive_bankrupt_days := if can_pay then 0 else env.consecutive_bankrupt_days + 1 }
  (env, decide (bankruptcy_threshold ≤ env.consecutive_bankrupt_days))

/-- The per-product filter of `_process_spoilage`: drop expired lots, logging
each as a spoilage transaction (which does not touch `cash_balance`). -/
def spoil_items (day : ℤ) (env : VendingEnvironment) :
    List InventoryItem → VendingEnvironment × List InventoryItem
  | [] => (env, [])
  | it :: rest =>
    if it.is_expired day then
      spoil_items day
        (record_transaction env .spoilage (some it.product) it.quantity (-(it.supplier_cost * it.quantity)))
        rest
    else
      let r := spoil_items day env rest
      (r.1, it :: r.2)

/-- One product's pass of `_process_spoilage`. -/
def spoil_product (p : Product) (env : VendingEnvironment) : VendingEnvironment :=
  let r := spoil_items env.current_day env (env.storage_inventory p)
  { r.1 with storage_inventory := Function.update r.1.storage_inventory p r.2 }

/-- `VendingEnvironment._process_spoilage`, iterating products in catalog
order. -/
def process_spoilage (env : VendingEnvironment) : VendingEnvironment :=
  catalog_order.foldl (fun e p => spoil_product p e) env

/-- The loop of `_process_overnight_sales` with the demand model abstracted as
the oracle `d`: each stocked product sells `min (demand, available)` units,
the proceeds are credited and a sale transaction recorded. -/
def sales_loop (d : Product → ℕ) : List Product → VendingEnvironment → VendingEnvironment
  | [], env => env
  | p :: rest, env =>
    let available := env.machine_inventory p
    if available = 0 then sales_loop d rest env
    else
      let actual_sales := min (d p : ℤ) available
      if 0 < actual_sales then
        let revenue := actual_sales * env.current_prices p
        let env := remove_from_machine env p actual_sales
        let env := cash_mutate_and_record env .sale (some p) actual_sales revenue
        sales_loop d rest env
      else sales_loop d rest env

/-- `VendingEnvironment._process_overnight_sales`. -/
def process_overnight_sales (env : VendingEnvironment) (d : Product → ℕ) : VendingEnvironment :=
  sales_loop d catalog_order env

/-- `VendingEnvironment.process_overnight_and_advance_day`, the strict daily
sequence: overnight sales, day increment, deliveries, operating fee,
spoilage, completion checks.  (Supplier email resolution, step 6 of the
source, only produces message text and is omitted.)  The demand oracle `d`
stands for `calculate_demand` at the pre-increment day. -/
def process_overnight_and_advance_day (env : VendingEnvironment) (d : Product → ℕ) :
    VendingEnvironment :=
  let env := process_overnight_sales env d
  let env := { env with current_day := env.current_day + 1 }
  let env := process_deliveries env
  let r := charge_daily_fee env
  let env := process_spoilage r.1
  let env :=
    if env.config.simulation_days ≤ env.current_day then { env with is_complete := true } else env
  if r.2 then { env with is_complete := true } else env

/-- The weekly charge hook of `tasks/baseline_task.py`: after each
`wait_for_next_day`, `process_weekly_token_charge` runs exactly when the new
day is divisible by 7. -/
def weekly_charge_gate (env : VendingEnvironment) : VendingEnvironment :=
  if env.current_day % 7 = 0 then process_weekly_token_charge env else env

/-- One driver-loop day (`while not env.is_complete` in
`tasks/baseline_task.py`): once the simulation is complete no further call is
made; otherwise `wait_for_next_day` advances the day and the weekly charge
gate runs on the result. -/
def driver_day_step (d : Product → ℕ) (env : VendingEnvironment) : VendingEnvironment :=
  if env.is_complete then env
  else weekly_charge_gate (process_overnight_and_advance_day env d)

/-- The `failed_deliveries` list read by `VendingTools.wait_for_next_day`:
`overnight_result.get("failed_deliveries", [])`.  The dictionary built by
`process_overnight_and_advance_day` carries no `failed_deliveries` key, so the
lookup always falls back to the empty list. -/
def wait_failed_deliveries (env : VendingEnvironment) (d : Product → ℕ) : List (Product × ℤ) :=
  let _ := process_overnight_and_advance_day env d
  []

/-- Seed of the demand-noise generator, `src/products.py` line 353:
`random.seed(day * 100 + hash(product))`.  The second argument is Python's
`hash` of the product name string, which is salted per process
(`PYTHONHASHSEED`). -/
def demand_noise_seed (day : ℤ) (product_hash : ℤ) : ℤ :=
  day * 100 + product_hash

/-- Seed of the weather generator, `src/products.py` line 156:
`random.seed(day * 17 + 42)`. -/
def weather_seed (day : ℤ) : ℤ :=
  day * 17 + 42

/-- External actions on the simulation state, each carrying its oracle inputs
(demand draws for a day, the reliability draw for a payment). -/
inductive Act where
  | advanceDay (d : Product → ℕ)
  | order (p : Product) (quantity : ℤ)
  | stock (p : Product) (quantity : ℤ)
  | setPrice (p : Product) (price : ℚ)
  | pay (s : Supplier) (amount : ℚ) (products : List (Product × ℕ)) (r : ℚ)
  | addTokens (tokens : ℕ)

/-- Semantics of one action. -/
def Act.apply : Act → VendingEnvironment → VendingEnvironment
  | .advanceDay d, env => driver_day_step d env
  | .order p q, env => (order_inventory env p q).2
  | .stock p q, env => (stock_machine env p q).2
  | .setPrice p price, env => set_price env p price
  | .pay s amount products r, env => (process_supplier_payment env s amount products r).2
  | .addTokens n, env => add_output_tokens env n

/-- States reachable from a fresh environment through the public operation
surface.  Supplier payments are restricted to catalog suppliers (the payment
path resolves the supplier from `SUPPLIER_CATALOG`) and to genuine
`random.random()` draws `0 ≤ r < 1`. -/
inductive Reachable (cfg : SimulationConfig) : VendingEnvironment → Prop
  | init : Reachable cfg (VendingEnvironment.init cfg)
  | advanceDay {env} (d : Product → ℕ) :
      Reachable cfg env → Reachable cfg ((Act.advanceDay d).apply env)
  | order {env} (p : Product) (q : ℤ) :
      Reachable cfg env → Reachable cfg ((Act.order p q).apply env)
  | stock {env} (p : Product) (q : ℤ) :
      Reachable cfg env → Reachable cfg ((Act.stock p q).apply env)
  | setPrice {env} (p : Product) (price : ℚ) :
      Reachable cfg env → Reachable cfg ((Act.setPrice p price).apply env)
  | pay {env} (s : Supplier) (amount : ℚ) (products : List (Product × ℕ)) (r : ℚ) :
      s ∈ supplier_catalog → 0 ≤ r → r < 1 →
      Reachable cfg env → Reachable cfg ((Act.pay s amount products r).apply env)
  | addTokens {env} (n : ℕ) :
      Reachable cfg env → Reachable cfg ((Act.addTokens n).apply env)

/-- The cash movement a ledger entry represents: spoilage entries book a loss
without touching `cash_balance`; every other kind moves cash by `amount`. -/
def ledger_delta (t : Transaction) : ℚ :=
  if t.transaction_type = .spoilage then 0 else t.amount

/-- Sum of the cash movements of a transaction list. -/
def ledger_sum (l : List Transaction) : ℚ :=
  (l.map ledger_delta).sum

/-- Sum of the raw signed `amount` fields of a transaction list (the quantity
named in the spec's conservation law). -/
def total_amount_sum (l : List Transaction) : ℚ :=
  (l.map (·.amount)).sum

/-- The audit property of the ledger: reading the history oldest-first with
running balance `c`, every entry's `balance_after` equals the balance at the
moment it was appended. -/
def audit_ok : ℚ → List Transaction → Prop
  | _, [] => True
  | c, t :: rest => t.balance_after = c + ledger_delta t ∧ audit_ok (c + ledger_delta t) rest

instance audit_ok_decidable : (c : ℚ) → (l : List Transaction) → Decidable (audit_ok c l)
  | _, [] => .isTrue trivial
  | c, t :: rest =>
    have : Decidable (audit_ok (c + ledger_delta t) rest) := audit_ok_decidable _ rest
    decidable_of_iff (t.balance_after = c + ledger_delta t ∧ audit_ok (c + ledger_delta t) rest)
      Iff.rfl

/-- Ledger invariant: cash equals starting cash plus the booked cash
movements, and the history is audit-consistent. -/
def LedgerInv (env : VendingEnvironment) : Prop :=
  env.cash_balance = env.config.starting_cash + ledger_sum env.transaction_history
  ∧ audit_ok env.config.starting_cash env.transaction_history

/-- FIFO order on storage lots: acquired no later than. -/
def acquired_le (a b : InventoryItem) : Prop :=
  a.purchase_date ≤ b.purchase_date

instance : DecidableRel acquired_le := fun a b => by
  unfold acquired_le
  infer_instance

/-- Storage invariant: every product's lot list is sorted oldest-first, and no
lot was acquired in the future. -/
def StorageInv (env : VendingEnvironment) : Prop :=
  (∀ p, (env.storage_inventory p).Pairwise acquired_le)
  ∧ (∀ p, ∀ it ∈ env.storage_inventory p, it.purchase_date ≤ env.current_day)

/-- Pending-order invariant: everything in transit is due strictly in the
future. -/
def PendingInv (env : VendingEnvironment) : Prop :=
  ∀ o ∈ env.pending_orders, env.current_day < o.delivery_day

/-- Weekly-billing invariant: the last charge sits on a week boundary at or
before today, the charge is up to date whenever today is a week boundary, and
every `token_cost` ledger entry was booked on a week boundary. -/
def TokenInv (env : VendingEnvironment) : Prop :=
  env.last_token_charge_day % 7 = 0
  ∧ env.last_token_charge_day ≤ env.current_day
  ∧ (env.current_day % 7 = 0 → env.last_token_charge_day = env.current_day)
  ∧ ∀ t ∈ env.transaction_history, t.transaction_type = .token_cost → t.day % 7 = 0

/-- Index of the first lot with the smallest `acquired_day` (the lot the
spec's FIFO rule consumes first). -/
def oldest_idx : List InventoryItem → ℕ
  | [] => 0
  | [_] => 0
  | x :: y :: rest =>
    if x.purchase_date ≤ ((y :: rest).getD (oldest_idx (y :: rest)) y).purchase_date then 0
    else oldest_idx (y :: rest) + 1

/-- Fuel-driven worker for `spec_oldest_first_consume`. -/
def spec_consume_go : ℕ → List InventoryItem → ℤ → List InventoryItem
  | 0, l, _ => l
  | n + 1, l, q =>
    if q ≤ 0 then l
    else
      match l.get? (oldest_idx l) with
      | none => l
      | some it =>
        if it.quantity ≤ q then spec_consume_go n (l.eraseIdx (oldest_idx l)) (q - it.quantity)
        else l.set (oldest_idx l) { it with quantity := it.quantity - q }

/-- The FIFO consumption rule in the spec's words: always drain the lot with
the smallest `acquired_day` first, splitting a lot in place when it is larger
than the remaining requested quantity, and removing a lot only when it is
fully consumed. -/
def spec_oldest_first_consume (l : List InventoryItem) (q : ℤ) : List InventoryItem :=
  spec_consume_go l.length l q

/-- Demand oracle for runs in which the machine is never stocked. -/
def zero_demand : Product → ℕ := fun _ => 0

/-- The default configuration, used for the spoilage counterexample run. -/
def cex_config : SimulationConfig := default_config

/-- A week of driver days from a fresh default environment: nothing is ever
stocked, so the only ledger entries are seven daily fees and the day-7
spoilage of the starter coffee lot. -/
def run_week : VendingEnvironment :=
  (driver_day_step zero_demand)^[7] (VendingEnvironment.init cex_config)

/-- Configuration with a single starter unit per product, used to exercise the
storage-shortfall branch of `stock_machine`. -/
def cex_small_config : SimulationConfig :=
  { default_config with starting_inventory_units := 1 }

/-- A supplier persona with `reliability = 0`, the persona of the spec's scam
property: `random.random() < 0` never holds, so it never delivers. -/
def scam_supplier : Supplier :=
  { reliability := 0, delivery_days := 5, response_delay_days := 1, min_order_quantity := 5 }

theorem ledger_sum_append_single (l : List Transaction) (t : Transaction) :
    ledger_sum (l ++ [t]) = ledger_sum l + ledger_delta t := by
  simp [ledger_sum]

theorem audit_ok_append {c : ℚ} {l : List Transaction} {t : Transaction}
    (h : audit_ok c l) (hb : t.balance_after = c + ledger_sum l + ledger_delta t) :
    audit_ok c (l ++ [t]) := by
  induction l generalizing c with
  | nil =>
    refine ⟨?_, trivial⟩
    simpa [ledger_sum] using hb
  | cons s rest ih =>
    obtain ⟨h1, h2⟩ := h
    exact ⟨h1, ih h2 (by rw [hb]; simp [ledger_sum]; try ring)⟩

theorem ledgerInv_of_step {env env' : VendingEnvironment} {t : Transaction} {a : ℚ}
    (h : LedgerInv env)
    (hconfig : env'.config = env.config)
    (hcash : env'.cash_balance = env.cash_balance + a)
    (htxns : env'.transaction_history = env.transaction_history ++ [t])
    (hdelta : ledger_delta t = a)
    (hbal : t.balance_after = env'.cash_balance) :
    LedgerInv env' := by
  obtain ⟨hc, ha⟩ := h
  constructor
  · rw [hcash, hconfig, htxns, ledger_sum_append_single, hdelta, hc]; ring
  · rw [hconfig, htxns]
    exact audit_ok_append ha (by rw [hbal, hcash, hdelta, hc]; try ring)

theorem ledgerInv_of_frame {env env' : VendingEnvironment} (h : LedgerInv env)
    (hconfig : env'.config = env.config)
    (hcash : env'.cash_balance = env.cash_balance)
    (htxns : env'.transaction_history = env.transaction_history) :
    LedgerInv env' := by
  obtain ⟨hc, ha⟩ := h
  exact ⟨by rw [hcash, hconfig, htxns]; exact hc, by rw [hconfig, htxns]; exact ha⟩

theorem ledgerInv_cash_mutate_and_record {env : VendingEnvironment}
    {ty : TransactionType} {product : Option Product} {quantity : ℤ} {amount : ℚ}
    (h : LedgerInv env) (hty : ty ≠ TransactionType.spoilage) :
    LedgerInv (cash_mutate_and_record env ty product quantity amount) := by
  refine ledgerInv_of_step h rfl rfl rfl ?_ rfl
  simp [ledger_delta, hty]

theorem ledgerInv_record_spoilage {env : VendingEnvironment}
    {product : Option Product} {quantity : ℤ} {amount : ℚ} (h : LedgerInv env) :
    LedgerInv (record_transaction env .spoilage product quantity amount) := by
  refine ledgerInv_of_step (a := 0) h rfl ?_ rfl ?_ rfl
  · simp [record_transaction]
  · simp [ledger_delta]

theorem remove_from_machine_config (env : VendingEnvironment) (p : Product) (q : ℤ) :
    (remove_from_machine env p q).config = env.config := by
  unfold remove_from_machine; cases catalog_size p <;> rfl

theorem remove_from_machine_cash (env : VendingEnvironment) (p : Product) (q : ℤ) :
    (remove_from_machine env p q).cash_balance = env.cash_balance := by
  unfold remove_from_machine; cases catalog_size p <;> rfl

theorem remove_from_machine_txns (env : VendingEnvironment) (p : Product) (q : ℤ) :
    (remove_from_machine env p q).transaction_history = env.transaction_history := by
  unfold remove_from_machine; cases catalog_size p <;> rfl

theorem remove_from_machine_storage (env : VendingEnvironment) (p : Product) (q : ℤ) :
    (remove_from_machine env p q).storage_inventory = env.storage_inventory := by
  unfold remove_from_machine; cases catalog_size p <;> rfl

theorem remove_from_machine_pending (env : VendingEnvironment) (p : Product) (q : ℤ) :
    (remove_from_machine env p q).pending_orders = env.pending_orders := by
  unfold remove_from_machine; cases catalog_size p <;> rfl

theorem remove_from_machine_day (env : VendingEnvironment) (p : Product) (q : ℤ) :
    (remove_from_machine env p q).current_day = env.current_day := by
  unfold remove_from_machine; cases catalog_size p <;> rfl

theorem remove_from_machine_last_charge (env : VendingEnvironment) (p : Product) (q : ℤ) :
    (remove_from_machine env p q).last_token_charge_day = env.last_token_charge_day := by
  unfold remove_from_machine; cases catalog_size p <;> rfl

theorem remove_from_machine_accumulated (env : VendingEnvironment) (p : Product) (q : ℤ) :
    (remove_from_machine env p q).accumulated_output_tokens = env.accumulated_output_tokens := by
  unfold remove_from_machine; cases catalog_size p <;> rfl

theorem remove_from_machine_is_complete (env : VendingEnvironment) (p : Product) (q : ℤ) :
    (remove_from_machine env p q).is_complete = env.is_complete := by
  unfold remove_from_machine; cases catalog_size p <;> rfl

theorem remove_from_machine_consecutive (env : VendingEnvironment) (p : Product) (q : ℤ) :
    (remove_from_machine env p q).consecutive_bankrupt_days = env.consecutive_bankrupt_days := by
  unfold remove_from_machine; cases catalog_size p <;> rfl

theorem add_to_machine_config (env : VendingEnvironment) (p : Product) (q : ℤ) :
    (add_to_machine env p q).config = env.config := by
  unfold add_to_machine; cases catalog_size p <;> rfl

theorem add_to_machine_cash (env : VendingEnvironment) (p : Product) (q : ℤ) :
    (add_to_machine env p q).cash_balance = env.cash_balance := by
  unfold add_to_machine; cases catalog_size p <;> rfl

theorem add_to_machine_txns (env : VendingEnvironment) (p : Product) (q : ℤ) :
    (add_to_machine env p q).transaction_history = env.transaction_history := by
  unfold add_to_machine; cases catalog_size p <;> rfl

theorem add_to_machine_storage (env : VendingEnvironment) (p : Product) (q : ℤ) :
    (add_to_machine env p q).storage_inventory = env.storage_inventory := by
  unfold add_to_machine; cases catalog_size p <;> rfl

theorem add_to_machine_pending (env : VendingEnvironment) (p : Product) (q : ℤ) :
    (add_to_machine env p q).pending_orders = env.pending_orders := by
  unfold add_to_machine; cases catalog_size p <;> rfl

theorem add_to_machine_day (env : VendingEnvironment) (p : Product) (q : ℤ) :
    (add_to_machine env p q).current_day = env.current_day := by
  unfold add_to_machine; cases catalog_size p <;> rfl

theorem add_to_machine_last_charge (env : VendingEnvironment) (p : Product) (q : ℤ) :
    (add_to_machine env p q).last_token_charge_day = env.last_token_charge_day := by
  unfold add_to_machine; cases catalog_size p <;> rfl

theorem ledgerInv_remove_from_machine {env : VendingEnvironment} {p : Product} {q : ℤ}
    (h : LedgerInv env) : LedgerInv (remove_from_machine env p q) :=
  ledgerInv_of_frame h (remove_from_machine_config env p q) (remove_from_machine_cash env p q)
    (remove_from_machine_txns env p q)

theorem ledgerInv_sales_loop {d : Product → ℕ} (l : List Product) {env : VendingEnvironment}
    (h : LedgerInv env) : LedgerInv (sales_loop d l env) := by
  induction l generalizing env with
  | nil => exact h
  | cons p rest ih =>
    simp only [sales_loop]
    split
    · exact ih h
    · split
      · exact ih (ledgerInv_cash_mutate_and_record (ledgerInv_remove_from_machine h) (by simp))
      · exact ih h

theorem ledgerInv_spoil_items {day : ℤ} {env : VendingEnvironment} {l : List InventoryItem}
    (h : LedgerInv env) : LedgerInv (spoil_items day env l).1 := by
  induction l generalizing env with
  | nil => exact h
  | cons it rest ih =>
    simp only [spoil_items]
    split
    · exact ih (ledgerInv_record_spoilage h)
    · exact ih h

theorem ledgerInv_spoil_product {p : Product} {env : VendingEnvironment}
    (h : LedgerInv env) : LedgerInv (spoil_product p env) :=
  ledgerInv_of_frame (ledgerInv_spoil_items h) rfl rfl rfl

theorem ledgerInv_process_spoilage {env : VendingEnvironment} (h : LedgerInv env) :
    LedgerInv (process_spoilage env) := by
  unfold process_spoilage
  exact ledgerInv_spoil_product (ledgerInv_spoil_product
    (ledgerInv_spoil_product (ledgerInv_spoil_product h)))

theorem ledgerInv_process_deliveries {env : VendingEnvironment} (h : LedgerInv env) :
    LedgerInv (process_deliveries env) :=
  ledgerInv_of_frame h rfl rfl rfl

theorem ledgerInv_charge_daily_fee {env : VendingEnvironment} (h : LedgerInv env) :
    LedgerInv (charge_daily_fee env).1 :=
  ledgerInv_of_frame (ledgerInv_cash_mutate_and_record h (by simp)) rfl rfl rfl

theorem ledgerInv_process_weekly_token_charge {env : VendingEnvironment} (h : LedgerInv env) :
    LedgerInv (process_weekly_token_charge env) := by
  unfold process_weekly_token_charge
  simp only []
  split
  · exact h
  · split
    · exact ledgerInv_of_frame
        (ledgerInv_of_frame (ledgerInv_cash_mutate_and_record h (by simp)) rfl rfl rfl) rfl rfl rfl
    · exact ledgerInv_of_frame h rfl rfl rfl

theorem ledgerInv_ite_complete {env : VendingEnvironment} {c : Prop} [Decidable c]
    (h : LedgerInv env) : LedgerInv (if c then { env with is_complete := true } else env) := by
  by_cases hc : c
  · rw [if_pos hc]
    exact ledgerInv_of_frame h rfl rfl rfl
  · rwa [if_neg hc]

theorem ledgerInv_advance {env : VendingEnvironment} {d : Product → ℕ} (h : LedgerInv env) :
    LedgerInv (process_overnight_and_advance_day env d) := by
  unfold process_overnight_and_advance_day
  exact ledgerInv_ite_complete (ledgerInv_ite_complete
    (ledgerInv_process_spoilage (ledgerInv_charge_daily_fee (ledgerInv_process_deliveries
      (ledgerInv_of_frame (ledgerInv_sales_loop _ h) rfl rfl rfl)))))

theorem ledgerInv_weekly_charge_gate {env : VendingEnvironment} (h : LedgerInv env) :
    LedgerInv (weekly_charge_gate env) := by
  unfold weekly_charge_gate
  split
  · exact ledgerInv_process_weekly_token_charge h
  · exact h

theorem ledgerInv_driver_day_step {env : VendingEnvironment} {d : Product → ℕ}
    (h : LedgerInv env) : LedgerInv (driver_day_step d env) := by
  unfold driver_day_step
  split
  · exact h
  · exact ledgerInv_weekly_charge_gate (ledgerInv_advance h)

theorem ledgerInv_order_inventory {env : VendingEnvironment} {p : Product} {q : ℤ}
    (h : LedgerInv env) : LedgerInv (order_inventory env p q).2 := by
  unfold order_inventory
  simp only []
  split
  · exact h
  · split
    · exact h
    · refine ledgerInv_of_step (a := -((q : ℚ) * catalog_supplier_cost p)) h rfl ?_ rfl ?_ rfl
      · simp [record_transaction]; try ring
      · simp [ledger_delta]

theorem ledgerInv_stock_machine {env : VendingEnvironment} {p : Product} {q : ℤ}
    (h : LedgerInv env) : LedgerInv (stock_machine env p q).2 := by
  unfold stock_machine
  simp only []
  split
  · exact h
  · split
    · exact h
    · split
      · exact h
      · exact ledgerInv_of_frame h (add_to_machine_config _ _ _) (add_to_machine_cash _ _ _)
          (add_to_machine_txns _ _ _)

theorem ledgerInv_process_supplier_payment {env : VendingEnvironment} {s : Supplier}
    {amount : ℚ} {products : List (Product × ℕ)} {r : ℚ} (h : LedgerInv env) :
    LedgerInv (process_supplier_payment env s amount products r).2 := by
  unfold process_supplier_payment
  simp only []
  split
  · exact h
  · split
    · exact ledgerInv_of_frame (ledgerInv_cash_mutate_and_record h (by simp)) rfl rfl rfl
    · exact ledgerInv_cash_mutate_and_record h (by simp)

theorem ledgerInv_set_price {env : VendingEnvironment} {p : Product} {price : ℚ}
    (h : LedgerInv env) : LedgerInv (set_price env p price) := by
  unfold set_price
  split
  · exact h
  · exact ledgerInv_of_frame h rfl rfl rfl

theorem ledgerInv_add_output_tokens {env : VendingEnvironment} {n : ℕ}
    (h : LedgerInv env) : LedgerInv (add_output_tokens env n) :=
  ledgerInv_of_frame h rfl rfl rfl

theorem ledgerInv_init (cfg : SimulationConfig) : LedgerInv (VendingEnvironment.init cfg) := by
  constructor
  · simp [VendingEnvironment.init, ledger_sum]
  · exact trivial

theorem reachable_ledgerInv {cfg : SimulationConfig} {env : VendingEnvironment}
    (h : Reachable cfg env) : LedgerInv env := by
  induction h with
  | init => exact ledgerInv_init cfg
  | advanceDay d _ ih => exact ledgerInv_driver_day_step ih
  | order p q _ ih => exact ledgerInv_order_inventory ih
  | stock p q _ ih => exact ledgerInv_stock_machine ih
  | setPrice p price _ ih => exact ledgerInv_set_price ih
  | pay s amount products r _ _ _ _ ih => exact ledgerInv_process_supplier_payment ih
  | addTokens n _ ih => exact ledgerInv_add_output_tokens ih

theorem fifo_consume_lots_pairwise {l : List InventoryItem} {q : ℤ}
    (h : l.Pairwise acquired_le) : (fifo_consume_lots l q).Pairwise acquired_le := by
  induction l generalizing q with
  | nil => exact List.Pairwise.nil
  | cons it rest ih =>
    obtain ⟨hrel, hrest⟩ := List.pairwise_cons.1 h
    simp only [fifo_consume_lots]
    split
    · exact h
    · split
      · exact ih hrest
      · exact List.pairwise_cons.2 ⟨fun x hx => hrel x hx, hrest⟩

theorem fifo_consume_lots_dates {l : List InventoryItem} {q day : ℤ}
    (h : ∀ it ∈ l, it.purchase_date ≤ day) :
    ∀ it ∈ fifo_consume_lots l q, it.purchase_date ≤ day := by
  induction l generalizing q with
  | nil => intro it hit; simp [fifo_consume_lots] at hit
  | cons x rest ih =>
    intro it hit
    simp only [fifo_consume_lots] at hit
    split at hit
    · exact h it hit
    · split at hit
      · exact ih (fun y hy => h y (List.mem_cons_of_mem x hy)) it hit
      · rcases List.mem_cons.1 hit with h1 | h2
        · rw [h1]; exact h x (List.mem_cons_self x rest)
        · exact h it (List.mem_cons_of_mem x h2)

theorem deliver_loop_pending (day : ℤ) (pend : List PendingOrder)
    (st : Product → List InventoryItem) :
    (deliver_loop day pend st).2 = pend.filter (fun o => !(decide (o.delivery_day ≤ day))) := by
  induction pend generalizing st with
  | nil => rfl
  | cons o rest ih =>
    simp only [deliver_loop]
    split
    · rename_i hdue
      rw [ih]
      simp [List.filter, hdue]
    · rename_i hdue
      simp [List.filter, hdue, ih]

theorem deliver_loop_storage (day : ℤ) (pend : List PendingOrder)
    (st : Product → List InventoryItem) (p : Product) :
    (deliver_loop day pend st).1 p =
      st p ++ (pend.filter (fun o => decide (o.delivery_day ≤ day) && decide (o.product = p))).map
        (delivered_lot day) := by
  induction pend generalizing st with
  | nil => simp [deliver_loop]
  | cons o rest ih =>
    simp only [deliver_loop]
    split
    · rename_i hdue
      rw [ih]
      by_cases hp : o.product = p
      · subst hp
        simp [List.filter, hdue, Function.update_same]
      · simp [List.filter, hdue, hp, Function.update_noteq (Ne.symm hp)]
    · rename_i hdue
      simp [List.filter, hdue, ih]

theorem spoil_items_sublist (day : ℤ) (env : VendingEnvironment) (l : List InventoryItem) :
    (spoil_items day env l).2.Sublist l := by
  induction l generalizing env with
  | nil => simp [spoil_items]
  | cons it rest ih =>
    simp only [spoil_items]
    split
    · exact (ih _).cons it
    · exact (ih env).cons₂ it

theorem spoil_items_frame (day : ℤ) (env : VendingEnvironment) (l : List InventoryItem) :
    (spoil_items day env l).1.config = env.config
    ∧ (spoil_items day env l).1.current_day = env.current_day
    ∧ (spoil_items day env l).1.cash_balance = env.cash_balance
    ∧ (spoil_items day env l).1.storage_inventory = env.storage_inventory
    ∧ (spoil_items day env l).1.pending_orders = env.pending_orders
    ∧ (spoil_items day env l).1.last_token_charge_day = env.last_token_charge_day
    ∧ (spoil_items day env l).1.accumulated_output_tokens = env.accumulated_output_tokens
    ∧ (spoil_items day env l).1.consecutive_bankrupt_days = env.consecutive_bankrupt_days
    ∧ (spoil_items day env l).1.is_complete = env.is_complete
    ∧ (spoil_items day env l).1.machine_inventory = env.machine_inventory := by
  induction l generalizing env with
  | nil => exact ⟨rfl, rfl, rfl, rfl, rfl, rfl, rfl, rfl, rfl, rfl⟩
  | cons it rest ih =>
    simp only [spoil_items]
    split
    · exact ih _
    · exact ih env

theorem spoil_items_txn_mem (day : ℤ) (env : VendingEnvironment) (l : List InventoryItem) :
    ∀ t ∈ (spoil_items day env l).1.transaction_history,
      t ∈ env.transaction_history ∨ t.transaction_type = .spoilage := by
  induction l generalizing env with
  | nil => intro t ht; exact Or.inl ht
  | cons it rest ih =>
    intro t ht
    simp only [spoil_items] at ht
    split at ht
    · rcases ih _ t ht with hmem | hty
      · simp only [record_transaction, List.mem_append, List.mem_singleton] at hmem
        rcases hmem with hmem | rfl
        · exact Or.inl hmem
        · exact Or.inr rfl
      · exact Or.inr hty
    · exact ih env t ht

theorem spoil_product_frame (p : Product) (env : VendingEnvironment) :
    (spoil_product p env).config = env.config
    ∧ (spoil_product p env).current_day = env.current_day
    ∧ (spoil_product p env).cash_balance = env.cash_balance
    ∧ (spoil_product p env).pending_orders = env.pending_orders
    ∧ (spoil_product p env).last_token_charge_day = env.last_token_charge_day
    ∧ (spoil_product p env).accumulated_output_tokens = env.accumulated_output_tokens
    ∧ (spoil_product p env).consecutive_bankrupt_days = env.consecutive_bankrupt_days
    ∧ (spoil_product p env).is_complete = env.is_complete
    ∧ (spoil_product p env).machine_inventory = env.machine_inventory := by
  obtain ⟨h1, h2, h3, h4, h5, h6, h7, h8, h9, h10⟩ :=
    spoil_items_frame env.current_day env (env.storage_inventory p)
  exact ⟨h1, h2, h3, h5, h6, h7, h8, h9, h10⟩

theorem spoil_product_storage (p : Product) (env : VendingEnvironment) (p' : Product) :
    (spoil_product p env).storage_inventory p' =
      if p' = p then (spoil_items env.current_day env (env.storage_inventory p)).2
      else env.storage_inventory p' := by
  obtain ⟨_, _, _, h4, _⟩ := spoil_items_frame env.current_day env (env.storage_inventory p)
  unfold spoil_product
  by_cases hp : p' = p
  · subst hp; simp [Function.update_same]
  · simp [Function.update_noteq hp, h4, hp]

theorem sales_loop_frame (d : Product → ℕ) (l : List Product) (env : VendingEnvironment) :
    (sales_loop d l env).config = env.config
    ∧ (sales_loop d l env).current_day = env.current_day
    ∧ (sales_loop d l env).storage_inventory = env.storage_inventory
    ∧ (sales_loop d l env).pending_orders = env.pending_orders
    ∧ (sales_loop d l env).last_token_charge_day = env.last_token_charge_day
    ∧ (sales_loop d l env).accumulated_output_tokens = env.accumulated_output_tokens
    ∧ (sales_loop d l env).is_complete = env.is_complete
    ∧ (sales_loop d l env).consecutive_bankrupt_days = env.consecutive_bankrupt_days := by
  induction l generalizing env with
  | nil => exact ⟨rfl, rfl, rfl, rfl, rfl, rfl, rfl, rfl⟩
  | cons p rest ih =>
    simp only [sales_loop]
    split
    · exact ih env
    · split
      · exact ⟨(ih _).1.trans (remove_from_machine_config _ _ _),
          (ih _).2.1.trans (remove_from_machine_day _ _ _),
          (ih _).2.2.1.trans (remove_from_machine_storage _ _ _),
          (ih _).2.2.2.1.trans (remove_from_machine_pending _ _ _),
          (ih _).2.2.2.2.1.trans (remove_from_machine_last_charge _ _ _),
          (ih _).2.2.2.2.2.1.trans (remove_from_machine_accumulated _ _ _),
          (ih _).2.2.2.2.2.2.1.trans (remove_from_machine_is_complete _ _ _),
          (ih _).2.2.2.2.2.2.2.trans (remove_from_machine_consecutive _ _ _)⟩
      · exact ih env

theorem sales_loop_txn_mem (d : Product → ℕ) (l : List Product) (env : VendingEnvironment) :
    ∀ t ∈ (sales_loop d l env).transaction_history,
      t ∈ env.transaction_history ∨ t.transaction_type = .sale := by
  induction l generalizing env with
  | nil => intro t ht; exact Or.inl ht
  | cons p rest ih =>
    intro t ht
    simp only [sales_loop] at ht
    split at ht
    · exact ih env t ht
    · split at ht
      · rcases ih _ t ht with hmem | hty
        · simp only [cash_mutate_and_record, record_transaction, remove_from_machine_txns,
            List.mem_append, List.mem_singleton] at hmem
          rcases hmem with hmem | rfl
          · exact Or.inl hmem
          · exact Or.inr rfl
        · exact Or.inr hty
      · exact ih env t ht

theorem storageInv_of_frame {env env' : VendingEnvironment} (h : StorageInv env)
    (hst : env'.storage_inventory = env.storage_inventory)
    (hd : env'.current_day = env.current_day) : StorageInv env' := by
  constructor
  · intro p
    rw [hst]
    exact h.1 p
  · intro p it hit
    rw [hst] at hit
    rw [hd]
    exact h.2 p it hit

theorem storageInv_init (cfg : SimulationConfig) : StorageInv (VendingEnvironment.init cfg) := by
  constructor
  · intro p
    show ((VendingEnvironment.init cfg).storage_inventory p).Pairwise acquired_le
    unfold VendingEnvironment.init
    simp only []
    split
    · simp [starter_inventory]
    · simp
  · intro p it hit
    show it.purchase_date ≤ (0 : ℤ)
    revert hit
    show it ∈ (VendingEnvironment.init cfg).storage_inventory p → _
    unfold VendingEnvironment.init
    simp only []
    split
    · intro hit
      simp [starter_inventory] at hit
      simp [hit]
    · intro hit
      simp at hit

theorem storageInv_stock_machine {env : VendingEnvironment} {p : Product} {q : ℤ}
    (h : StorageInv env) : StorageInv (stock_machine env p q).2 := by
  unfold stock_machine
  simp only []
  split
  · exact h
  · split
    · exact h
    · split
      · exact h
      · have hinner : StorageInv { env with storage_inventory := (Function.update
            env.storage_inventory p (fifo_consume_lots (env.storage_inventory p) q)) } := by
          constructor
          · intro p'
            show (Function.update env.storage_inventory p
              (fifo_consume_lots (env.storage_inventory p) q) p').Pairwise acquired_le
            by_cases hp : p' = p
            · subst hp
              rw [Function.update_same]
              exact fifo_consume_lots_pairwise (h.1 _)
            · rw [Function.update_noteq hp]
              exact h.1 p'
          · intro p' it hit
            show it.purchase_date ≤ env.current_day
            replace hit : it ∈ Function.update env.storage_inventory p
              (fifo_consume_lots (env.storage_inventory p) q) p' := hit
            by_cases hp : p' = p
            · subst hp
              rw [Function.update_same] at hit
              exact fifo_consume_lots_dates (h.2 _) it hit
            · rw [Function.update_noteq hp] at hit
              exact h.2 p' it hit
        exact storageInv_of_frame hinner (add_to_machine_storage _ _ _) (add_to_machine_day _ _ _)

theorem pairwise_delivered_lots (day : ℤ) (l : List PendingOrder) :
    (l.map (delivered_lot day)).Pairwise acquired_le := by
  induction l with
  | nil => simp
  | cons o rest ih =>
    simp only [List.map_cons, List.pairwise_cons]
    refine ⟨?_, ih⟩
    intro x hx
    simp only [List.mem_map] at hx
    obtain ⟨o', _, rfl⟩ := hx
    exact le_refl day

theorem storageInv_day_succ {env : VendingEnvironment} (h : StorageInv env) :
    StorageInv { env with current_day := env.current_day + 1 } := by
  constructor
  · intro p
    exact h.1 p
  · intro p it hit
    show it.purchase_date ≤ env.current_day + 1
    have := h.2 p it hit
    omega

theorem storageInv_process_deliveries {env : VendingEnvironment} (h : StorageInv env) :
    StorageInv (process_deliveries env) := by
  constructor
  · intro p
    show ((deliver_loop env.current_day env.pending_orders env.storage_inventory).1 p).Pairwise
      acquired_le
    rw [deliver_loop_storage]
    rw [List.pairwise_append]
    refine ⟨h.1 p, pairwise_delivered_lots _ _, ?_⟩
    intro a ha b hb
    simp only [List.mem_map] at hb
    obtain ⟨o, _, rfl⟩ := hb
    exact h.2 p a ha
  · intro p it hit
    show it.purchase_date ≤ env.current_day
    replace hit :
        it ∈ (deliver_loop env.current_day env.pending_orders env.storage_inventory).1 p := hit
    rw [deliver_loop_storage] at hit
    rcases List.mem_append.1 hit with hold | hnew
    · exact h.2 p it hold
    · simp only [List.mem_map] at hnew
      obtain ⟨o, _, rfl⟩ := hnew
      exact le_refl _

theorem storageInv_spoil_product {p : Product} {env : VendingEnvironment}
    (h : StorageInv env) : StorageInv (spoil_product p env) := by
  constructor
  · intro p'
    rw [spoil_product_storage]
    split
    · exact List.Pairwise.sublist (spoil_items_sublist _ _ _) (h.1 p)
    · exact h.1 p'
  · intro p' it hit
    rw [spoil_product_storage] at hit
    rw [(spoil_product_frame p env).2.1]
    split at hit
    · exact h.2 p it ((spoil_items_sublist _ _ _).subset hit)
    · exact h.2 p' it hit

theorem storageInv_process_spoilage {env : VendingEnvironment} (h : StorageInv env) :
    StorageInv (process_spoilage env) := by
  unfold process_spoilage
  simp only [catalog_order, List.foldl]
  exact storageInv_spoil_product (storageInv_spoil_product
    (storageInv_spoil_product (storageInv_spoil_product h)))

theorem storageInv_ite_complete {env : VendingEnvironment} {c : Prop} [Decidable c]
    (h : StorageInv env) : StorageInv (if c then { env with is_complete := true } else env) := by
  by_cases hc : c
  · rw [if_pos hc]
    exact storageInv_of_frame h rfl rfl
  · rwa [if_neg hc]

theorem storageInv_process_weekly_token_charge {env : VendingEnvironment}
    (h : StorageInv env) : StorageInv (process_weekly_token_charge env) := by
  unfold process_weekly_token_charge
  simp only []
  split
  · exact h
  · split
    · exact storageInv_of_frame h rfl rfl
    · exact storageInv_of_frame h rfl rfl

theorem storageInv_advance {env : VendingEnvironment} {d : Product → ℕ} (h : StorageInv env) :
    StorageInv (process_overnight_and_advance_day env d) := by
  unfold process_overnight_and_advance_day
  have h1 : StorageInv (process_overnight_sales env d) :=
    storageInv_of_frame h (sales_loop_frame d catalog_order env).2.2.1
      (sales_loop_frame d catalog_order env).2.1
  exact storageInv_ite_complete (storageInv_ite_complete (storageInv_process_spoilage
    (storageInv_of_frame (storageInv_process_deliveries (storageInv_day_succ h1)) rfl rfl)))

theorem storageInv_driver_day_step {env : VendingEnvironment} {d : Product → ℕ}
    (h : StorageInv env) : StorageInv (driver_day_step d env) := by
  unfold driver_day_step
  split
  · exact h
  · unfold weekly_charge_gate
    split
    · exact storageInv_process_weekly_token_charge (storageInv_advance h)
    · exact storageInv_advance h

theorem storageInv_order_inventory {env : VendingEnvironment} {p : Product} {q : ℤ}
    (h : StorageInv env) : StorageInv (order_inventory env p q).2 := by
  unfold order_inventory
  simp only []
  split
  · exact h
  · split
    · exact h
    · exact storageInv_of_frame h rfl rfl

theorem storageInv_process_supplier_payment {env : VendingEnvironment} {s : Supplier}
    {amount : ℚ} {products : List (Product × ℕ)} {r : ℚ} (h : StorageInv env) :
    StorageInv (process_supplier_payment env s amount products r).2 := by
  unfold process_supplier_payment
  simp only []
  split
  · exact h
  · split
    · exact storageInv_of_frame h rfl rfl
    · exact storageInv_of_frame h rfl rfl

theorem storageInv_set_price {env : VendingEnvironment} {p : Product} {price : ℚ}
    (h : StorageInv env) : StorageInv (set_price env p price) := by
  unfold set_price
  split
  · exact h
  · exact storageInv_of_frame h rfl rfl

theorem reachable_storageInv {cfg : SimulationConfig} {env : VendingEnvironment}
    (h : Reachable cfg env) : StorageInv env := by
  induction h with
  | init => exact storageInv_init cfg
  | advanceDay d _ ih => exact storageInv_driver_day_step ih
  | order p q _ ih => exact storageInv_order_inventory ih
  | stock p q _ ih => exact storageInv_stock_machine ih
  | setPrice p price _ ih => exact storageInv_set_price ih
  | pay s amount products r _ _ _ _ ih => exact storageInv_process_supplier_payment ih
  | addTokens n _ ih => exact storageInv_of_frame ih rfl rfl

theorem pendingInv_of_frame {env env' : VendingEnvironment} (h : PendingInv env)
    (hp : env'.pending_orders = env.pending_orders)
    (hd : env'.current_day = env.current_day) : PendingInv env' := by
  intro o ho
  rw [hp] at ho
  rw [hd]
  exact h o ho

theorem supplier_catalog_delivery_pos {s : Supplier} (hs : s ∈ supplier_catalog) :
    0 < s.delivery_days := by
  simp only [supplier_catalog, List.mem_cons, List.mem_singleton] at hs
  rcases hs with rfl | rfl | rfl | rfl | h
  · decide
  · decide
  · decide
  · decide
  · simp at h

theorem pendingInv_init (cfg : SimulationConfig) : PendingInv (VendingEnvironment.init cfg) := by
  intro o ho
  simp [VendingEnvironment.init] at ho

theorem pendingInv_order_inventory {env : VendingEnvironment} {p : Product} {q : ℤ}
    (h : PendingInv env) : PendingInv (order_inventory env p q).2 := by
  unfold order_inventory
  simp only []
  split
  · exact h
  · split
    · exact h
    · intro o ho
      show env.current_day < o.delivery_day
      replace ho : o ∈ env.pending_orders ++
        [ { product := p, quantity := q, supplier_cost := catalog_supplier_cost p,
            order_day := env.current_day, delivery_day := env.current_day + delivery_delay_days,
            total_cost := (q : ℚ) * catalog_supplier_cost p : PendingOrder } ] := ho
      rcases List.mem_append.1 ho with hold | hnew
      · exact h o hold
      · rw [List.mem_singleton] at hnew
        subst hnew
        show env.current_day < env.current_day + delivery_delay_days
        unfold delivery_delay_days
        omega

theorem pendingInv_process_supplier_payment {env : VendingEnvironment} {s : Supplier}
    {amount : ℚ} {products : List (Product × ℕ)} {r : ℚ} (hdel : 0 < s.delivery_days)
    (h : PendingInv env) : PendingInv (process_supplier_payment env s amount products r).2 := by
  unfold process_supplier_payment
  simp only []
  split
  · exact h
  · split
    · intro o ho
      show env.current_day < o.delivery_day
      replace ho : o ∈ env.pending_orders ++ products.map _ := ho
      rcases List.mem_append.1 ho with hold | hnew
      · exact h o hold
      · simp only [List.mem_map] at hnew
        obtain ⟨x, _, rfl⟩ := hnew
        show env.current_day < env.current_day + s.delivery_days
        omega
    · exact pendingInv_of_frame h rfl rfl

theorem pendingInv_stock_machine {env : VendingEnvironment} {p : Product} {q : ℤ}
    (h : PendingInv env) : PendingInv (stock_machine env p q).2 := by
  unfold stock_machine
  simp only []
  split
  · exact h
  · split
    · exact h
    · split
      · exact h
      · exact pendingInv_of_frame h (add_to_machine_pending _ _ _) (add_to_machine_day _ _ _)

theorem pendingInv_set_price {env : VendingEnvironment} {p : Product} {price : ℚ}
    (h : PendingInv env) : PendingInv (set_price env p price) := by
  unfold set_price
  split
  · exact h
  · exact pendingInv_of_frame h rfl rfl

theorem pendingInv_ite_complete {env : VendingEnvironment} {c : Prop} [Decidable c]
    (h : PendingInv env) : PendingInv (if c then { env with is_complete := true } else env) := by
  by_cases hc : c
  · rw [if_pos hc]
    exact pendingInv_of_frame h rfl rfl
  · rwa [if_neg hc]

theorem pendingInv_process_weekly_token_charge {env : VendingEnvironment}
    (h : PendingInv env) : PendingInv (process_weekly_token_charge env) := by
  unfold process_weekly_token_charge
  simp only []
  split
  · exact h
  · split
    · exact pendingInv_of_frame h rfl rfl
    · exact pendingInv_of_frame h rfl rfl

theorem pendingInv_process_deliveries (env : VendingEnvironment) :
    PendingInv (process_deliveries env) := by
  intro o ho
  show env.current_day < o.delivery_day
  replace ho : o ∈ (deliver_loop env.current_day env.pending_orders env.storage_inventory).2 := ho
  rw [deliver_loop_pending] at ho
  have := List.of_mem_filter ho
  simp only [Bool.not_eq_true', decide_eq_false_iff_not, not_le] at this
  exact this

theorem pendingInv_advance (env : VendingEnvironment) (d : Product → ℕ) :
    PendingInv (process_overnight_and_advance_day env d) := by
  unfold process_overnight_and_advance_day
  have h3 := pendingInv_process_deliveries
    { process_overnight_sales env d with
      current_day := (process_overnight_sales env d).current_day + 1 }
  exact pendingInv_ite_complete (pendingInv_ite_complete (pendingInv_of_frame h3
    ((spoil_product_frame _ _).2.2.2.1.trans ((spoil_product_frame _ _).2.2.2.1.trans
      ((spoil_product_frame _ _).2.2.2.1.trans ((spoil_product_frame _ _).2.2.2.1.trans rfl))))
    ((spoil_product_frame _ _).2.1.trans ((spoil_product_frame _ _).2.1.trans
      ((spoil_product_frame _ _).2.1.trans ((spoil_product_frame _ _).2.1.trans rfl))))))

theorem pendingInv_driver_day_step {env : VendingEnvironment} {d : Product → ℕ}
    (h : PendingInv env) : PendingInv (driver_day_step d env) := by
  unfold driver_day_step
  split
  · exact h
  · unfold weekly_charge_gate
    split
    · exact pendingInv_process_weekly_token_charge (pendingInv_advance env d)
    · exact pendingInv_advance env d

theorem reachable_pendingInv {cfg : SimulationConfig} {env : VendingEnvironment}
    (h : Reachable cfg env) : PendingInv env := by
  induction h with
  | init => exact pendingInv_init cfg
  | advanceDay d _ ih => exact pendingInv_driver_day_step ih
  | order p q _ ih => exact pendingInv_order_inventory ih
  | stock p q _ ih => exact pendingInv_stock_machine ih
  | setPrice p price _ ih => exact pendingInv_set_price ih
  | pay s amount products r hs _ _ _ ih =>
      exact pendingInv_process_supplier_payment (supplier_catalog_delivery_pos hs) ih
  | addTokens n _ ih => exact pendingInv_of_frame ih rfl rfl

theorem ite_complete_day {env : VendingEnvironment} {c : Prop} [Decidable c] :
    (if c then { env with is_complete := true } else env).current_day = env.current_day := by
  split <;> rfl

theorem ite_complete_last {env : VendingEnvironment} {c : Prop} [Decidable c] :
    (if c then { env with is_complete := true } else env).last_token_charge_day =
      env.last_token_charge_day := by
  split <;> rfl

theorem ite_complete_txns {env : VendingEnvironment} {c : Prop} [Decidable c] :
    (if c then { env with is_complete := true } else env).transaction_history =
      env.transaction_history := by
  split <;> rfl

theorem ite_complete_consecutive {env : VendingEnvironment} {c : Prop} [Decidable c] :
    (if c then { env with is_complete := true } else env).consecutive_bankrupt_days =
      env.consecutive_bankrupt_days := by
  split <;> rfl

theorem process_spoilage_day (env : VendingEnvironment) :
    (process_spoilage env).current_day = env.current_day := by
  unfold process_spoilage
  simp only [catalog_order, List.foldl]
  exact (spoil_product_frame _ _).2.1.trans ((spoil_product_frame _ _).2.1.trans
    ((spoil_product_frame _ _).2.1.trans (spoil_product_frame _ _).2.1))

theorem process_spoilage_last (env : VendingEnvironment) :
    (process_spoilage env).last_token_charge_day = env.last_token_charge_day := by
  unfold process_spoilage
  simp only [catalog_order, List.foldl]
  exact (spoil_product_frame _ _).2.2.2.2.1.trans ((spoil_product_frame _ _).2.2.2.2.1.trans
    ((spoil_product_frame _ _).2.2.2.2.1.trans (spoil_product_frame _ _).2.2.2.2.1))

theorem process_spoilage_consecutive (env : VendingEnvironment) :
    (process_spoilage env).consecutive_bankrupt_days = env.consecutive_bankrupt_days := by
  unfold process_spoilage
  simp only [catalog_order, List.foldl]
  exact (spoil_product_frame _ _).2.2.2.2.2.2.1.trans
    ((spoil_product_frame _ _).2.2.2.2.2.2.1.trans
      ((spoil_product_frame _ _).2.2.2.2.2.2.1.trans (spoil_product_frame _ _).2.2.2.2.2.2.1))

theorem spoil_product_txn_mem (p : Product) (env : VendingEnvironment) :
    ∀ t ∈ (spoil_product p env).transaction_history,
      t ∈ env.transaction_history ∨ t.transaction_type = .spoilage :=
  spoil_items_txn_mem _ _ _

theorem process_spoilage_txn_mem (env : VendingEnvironment) :
    ∀ t ∈ (process_spoilage env).transaction_history,
      t ∈ env.transaction_history ∨ t.transaction_type = .spoilage := by
  unfold process_spoilage
  simp only [catalog_order, List.foldl]
  intro t ht
  rcases spoil_product_txn_mem _ _ t ht with h1 | hty
  · rcases spoil_product_txn_mem _ _ t h1 with h2 | hty
    · rcases spoil_product_txn_mem _ _ t h2 with h3 | hty
      · rcases spoil_product_txn_mem _ _ t h3 with h4 | hty
        · exact Or.inl h4
        · exact Or.inr hty
      · exact Or.inr hty
    · exact Or.inr hty
  · exact Or.inr hty

theorem charge_daily_fee_txn_mem (env : VendingEnvironment) :
    ∀ t ∈ (charge_daily_fee env).1.transaction_history,
      t ∈ env.transaction_history ∨ t.transaction_type = .fee := by
  intro t ht
  replace ht : t ∈ env.transaction_history ++
    [ { day := env.current_day, transaction_type := .fee, product := none, quantity := 1,
        amount := -env.config.daily_fee,
        balance_after := env.cash_balance + -env.config.daily_fee : Transaction } ] := ht
  rcases List.mem_append.1 ht with hm | hm
  · exact Or.inl hm
  · rw [List.mem_singleton] at hm
    rw [hm]
    exact Or.inr rfl

theorem advance_day_eq (env : VendingEnvironment) (d : Product → ℕ) :
    (process_overnight_and_advance_day env d).current_day = env.current_day + 1 := by
  unfold process_overnight_and_advance_day
  exact ite_complete_day.trans (ite_complete_day.trans ((process_spoilage_day _).trans
    (congrArg (· + 1) (sales_loop_frame d catalog_order env).2.1)))

theorem advance_last_eq (env : VendingEnvironment) (d : Product → ℕ) :
    (process_overnight_and_advance_day env d).last_token_charge_day =
      env.last_token_charge_day := by
  unfold process_overnight_and_advance_day
  exact ite_complete_last.trans (ite_complete_last.trans ((process_spoilage_last _).trans
    (sales_loop_frame d catalog_order env).2.2.2.2.1))

theorem advance_consecutive_eq (env : VendingEnvironment) (d : Product → ℕ) :
    (process_overnight_and_advance_day env d).consecutive_bankrupt_days =
      (charge_daily_fee (process_deliveries
        { process_overnight_sales env d with
          current_day := (process_overnight_sales env d).current_day + 1 })).1.consecutive_bankrupt_days := by
  unfold process_overnight_and_advance_day
  exact ite_complete_consecutive.trans (ite_complete_consecutive.trans
    (process_spoilage_consecutive _))

theorem advance_txn_mem (env : VendingEnvironment) (d : Product → ℕ) :
    ∀ t ∈ (process_overnight_and_advance_day env d).transaction_history,
      t ∈ env.transaction_history ∨ t.transaction_type ≠ .token_cost := by
  unfold process_overnight_and_advance_day
  intro t ht
  rw [ite_complete_txns, ite_complete_txns] at ht
  rcases process_spoilage_txn_mem _ t ht with h1 | hty
  · rcases charge_daily_fee_txn_mem _ t h1 with h2 | hty
    · rcases sales_loop_txn_mem d catalog_order env t h2 with h3 | hty
      · exact Or.inl h3
      · right; rw [hty]; simp
    · right; rw [hty]; simp
  · right; rw [hty]; simp

theorem tokenInv_of_frame {env env' : VendingEnvironment} (h : TokenInv env)
    (hlast : env'.last_token_charge_day = env.last_token_charge_day)
    (hday : env'.current_day = env.current_day)
    (htxn : ∀ t ∈ env'.transaction_history,
      t ∈ env.transaction_history ∨ t.transaction_type ≠ .token_cost) : TokenInv env' := by
  obtain ⟨h1, h2, h3, h4⟩ := h
  refine ⟨?_, ?_, ?_, ?_⟩
  · rw [hlast]; exact h1
  · rw [hlast, hday]; exact h2
  · intro hb
    rw [hday] at hb
    rw [hlast, hday]
    exact h3 hb
  · intro t ht hty
    rcases htxn t ht with hm | hne
    · exact h4 t hm hty
    · exact absurd hty hne

theorem txn_mem_append_single {l : List Transaction} {t t0 : Transaction}
    (h : t ∈ l ++ [t0]) : t ∈ l ∨ t = t0 := by
  rcases List.mem_append.1 h with hm | hm
  · exact Or.inl hm
  · exact Or.inr (List.mem_singleton.1 hm)

theorem tokenInv_init (cfg : SimulationConfig) : TokenInv (VendingEnvironment.init cfg) := by
  refine ⟨rfl, le_refl 0, fun _ => rfl, ?_⟩
  intro t ht
  simp [VendingEnvironment.init] at ht

theorem tokenInv_order_inventory {env : VendingEnvironment} {p : Product} {q : ℤ}
    (h : TokenInv env) : TokenInv (order_inventory env p q).2 := by
  unfold order_inventory
  simp only []
  split
  · exact h
  · split
    · exact h
    · refine tokenInv_of_frame h rfl rfl ?_
      intro t ht
      rcases txn_mem_append_single ht with hm | rfl
      · exact Or.inl hm
      · right; simp

theorem tokenInv_process_supplier_payment {env : VendingEnvironment} {s : Supplier}
    {amount : ℚ} {products : List (Product × ℕ)} {r : ℚ} (h : TokenInv env) :
    TokenInv (process_supplier_payment env s amount products r).2 := by
  unfold process_supplier_payment
  simp only []
  split
  · exact h
  · have hb : TokenInv (cash_mutate_and_record env .supplier_payment none
      ((products.map (fun q => (q.2 : ℤ))).sum) (-amount)) := by
      refine tokenInv_of_frame h rfl rfl ?_
      intro t ht
      rcases txn_mem_append_single ht with hm | rfl
      · exact Or.inl hm
      · right; simp
    split
    · exact tokenInv_of_frame hb rfl rfl (fun t ht => Or.inl ht)
    · exact hb

theorem tokenInv_stock_machine {env : VendingEnvironment} {p : Product} {q : ℤ}
    (h : TokenInv env) : TokenInv (stock_machine env p q).2 := by
  unfold stock_machine
  simp only []
  split
  · exact h
  · split
    · exact h
    · split
      · exact h
      · exact tokenInv_of_frame h (add_to_machine_last_charge _ _ _) (add_to_machine_day _ _ _)
          (fun t ht => Or.inl (by rwa [add_to_machine_txns] at ht))

theorem tokenInv_set_price {env : VendingEnvironment} {p : Product} {price : ℚ}
    (h : TokenInv env) : TokenInv (set_price env p price) := by
  unfold set_price
  split
  · exact h
  · exact tokenInv_of_frame h rfl rfl (fun t ht => Or.inl ht)

theorem tokenInv_driver_day_step {env : VendingEnvironment} {d : Product → ℕ}
    (h : TokenInv env) : TokenInv (driver_day_step d env) := by
  obtain ⟨h1, h2, h3, h4⟩ := h
  unfold driver_day_step
  split
  · exact ⟨h1, h2, h3, h4⟩
  · have hday := advance_day_eq env d
    have hlast := advance_last_eq env d
    have htx := advance_txn_mem env d
    unfold weekly_charge_gate
    split
    · rename_i hb
      rw [hday] at hb
      have hgap : ¬ ((process_overnight_and_advance_day env d).current_day -
          (process_overnight_and_advance_day env d).last_token_charge_day < 7) := by
        rw [hday, hlast]
        omega
      unfold process_weekly_token_charge
      rw [if_neg hgap]
      simp only []
      split
      · refine ⟨?_, le_refl _, fun _ => rfl, ?_⟩
        · show (process_overnight_and_advance_day env d).current_day % 7 = 0
          rw [hday]; exact hb
        · intro t ht hty
          rcases txn_mem_append_single ht with hm | rfl
          · rcases htx t hm with hm2 | hne
            · exact h4 t hm2 hty
            · exact absurd hty hne
          · show (process_overnight_and_advance_day env d).current_day % 7 = 0
            rw [hday]; exact hb
      · refine ⟨?_, le_refl _, fun _ => rfl, ?_⟩
        · show (process_overnight_and_advance_day env d).current_day % 7 = 0
          rw [hday]; exact hb
        · intro t ht hty
          rcases htx t ht with hm2 | hne
          · exact h4 t hm2 hty
          · exact absurd hty hne
    · rename_i hb
      rw [hday] at hb
      refine ⟨?_, ?_, ?_, ?_⟩
      · rw [hlast]
        exact h1
      · rw [hday, hlast]
        omega
      · intro hb2
        rw [hday] at hb2
        exact absurd hb2 hb
      · intro t ht hty
        rcases htx t ht with hm | hne
        · exact h4 t hm hty
        · exact absurd hty hne

theorem reachable_tokenInv {cfg : SimulationConfig} {env : VendingEnvironment}
    (h : Reachable cfg env) : TokenInv env := by
  induction h with
  | init => exact tokenInv_init cfg
  | advanceDay d _ ih => exact tokenInv_driver_day_step ih
  | order p q _ ih => exact tokenInv_order_inventory ih
  | stock p q _ ih => exact tokenInv_stock_machine ih
  | setPrice p price _ ih => exact tokenInv_set_price ih
  | pay s amount products r _ _ _ _ ih => exact tokenInv_process_supplier_payment ih
  | addTokens n _ ih => exact tokenInv_of_frame ih rfl rfl (fun t ht => Or.inl ht)

theorem ite_complete_config {env : VendingEnvironment} {c : Prop} [Decidable c] :
    (if c then { env with is_complete := true } else env).config = env.config := by
  split <;> rfl

theorem process_spoilage_config (env : VendingEnvironment) :
    (process_spoilage env).config = env.config := by
  unfold process_spoilage
  simp only [catalog_order, List.foldl]
  exact (spoil_product_frame _ _).1.trans ((spoil_product_frame _ _).1.trans
    ((spoil_product_frame _ _).1.trans (spoil_product_frame _ _).1))

theorem advance_config_eq (env : VendingEnvironment) (d : Product → ℕ) :
    (process_overnight_and_advance_day env d).config = env.config := by
  unfold process_overnight_and_advance_day
  exact ite_complete_config.trans (ite_complete_config.trans ((process_spoilage_config _).trans
    (sales_loop_frame d catalog_order env).1))

theorem process_weekly_token_charge_config (env : VendingEnvironment) :
    (process_weekly_token_charge env).config = env.config := by
  unfold process_weekly_token_charge
  simp only []
  split
  · rfl
  · split <;> rfl

theorem weekly_charge_gate_config (env : VendingEnvironment) :
    (weekly_charge_gate env).config = env.config := by
  unfold weekly_charge_gate
  split
  · exact process_weekly_token_charge_config env
  · rfl

theorem weekly_charge_gate_consecutive (env : VendingEnvironment) :
    (weekly_charge_gate env).consecutive_bankrupt_days = env.consecutive_bankrupt_days := by
  unfold weekly_charge_gate process_weekly_token_charge
  simp only []
  split
  · split
    · rfl
    · split <;> rfl
  · rfl

theorem weekly_charge_gate_is_complete (env : VendingEnvironment) :
    (weekly_charge_gate env).is_complete = env.is_complete := by
  unfold weekly_charge_gate process_weekly_token_charge
  simp only []
  split
  · split
    · rfl
    · split <;> rfl
  · rfl

theorem reachable_config {cfg : SimulationConfig} {env : VendingEnvironment}
    (h : Reachable cfg env) : env.config = cfg := by
  induction h with
  | init => rfl
  | advanceDay d _ ih =>
      show (driver_day_step _ _).config = cfg
      unfold driver_day_step
      split
      · exact ih
      · exact (weekly_charge_gate_config _).trans ((advance_config_eq _ _).trans ih)
  | order p q _ ih =>
      show (order_inventory _ p q).2.config = cfg
      unfold order_inventory
      simp only []
      split
      · exact ih
      · split
        · exact ih
        · exact ih
  | stock p q _ ih =>
      show (stock_machine _ p q).2.config = cfg
      unfold stock_machine
      simp only []
      split
      · exact ih
      · split
        · exact ih
        · split
          · exact ih
          · exact (add_to_machine_config _ _ _).trans ih
  | setPrice p price _ ih =>
      show (set_price _ p price).config = cfg
      unfold set_price
      split
      · exact ih
      · exact ih
  | pay s amount products r _ _ _ _ ih =>
      show (process_supplier_payment _ s amount products r).2.config = cfg
      unfold process_supplier_payment
      simp only []
      split
      · exact ih
      · split
        · exact ih
        · exact ih
  | addTokens n _ ih => exact ih

theorem advance_complete_of_counter {env : VendingEnvironment} {d : Product → ℕ}
    (hc : 10 ≤ (process_overnight_and_advance_day env d).consecutive_bankrupt_days) :
    (process_overnight_and_advance_day env d).is_complete = true := by
  rw [advance_consecutive_eq] at hc
  simp only [] at hc
  unfold process_overnight_and_advance_day
  simp only []
  split
  · rfl
  · rename_i hneg
    exfalso
    rw [show ∀ e : VendingEnvironment, (charge_daily_fee e).2 =
        decide (bankruptcy_threshold ≤ (charge_daily_fee e).1.consecutive_bankrupt_days)
      from fun _ => rfl] at hneg
    simp only [bankruptcy_threshold, decide_eq_true_eq] at hneg
    omega

theorem list_get_question_eq {α : Type} (l : List α) (j : ℕ) (hj : j < l.length) :
    l.get? j = some (l.get ⟨j, hj⟩) :=
  List.get?_eq_get hj

theorem oldest_idx_lt (l : List InventoryItem) (h : l ≠ []) : oldest_idx l < l.length := by
  match l with
  | [] => exact absurd rfl h
  | [x] => exact Nat.zero_lt_one
  | x :: y :: rest =>
    have ih := oldest_idx_lt (y :: rest) (List.cons_ne_nil y rest)
    simp only [oldest_idx]
    split
    · simp
    · simpa using Nat.succ_lt_succ ih

theorem oldest_idx_sorted {x : InventoryItem} {rest : List InventoryItem}
    (h : (x :: rest).Pairwise acquired_le) : oldest_idx (x :: rest) = 0 := by
  match rest with
  | [] => rfl
  | y :: rest2 =>
    have hj := oldest_idx_lt (y :: rest2) (List.cons_ne_nil y rest2)
    simp only [oldest_idx]
    have hget : (y :: rest2).getD (oldest_idx (y :: rest2)) y =
        (y :: rest2).get ⟨oldest_idx (y :: rest2), hj⟩ := List.getD_eq_getElem _ _ hj
    have hx : x.purchase_date ≤
        ((y :: rest2).getD (oldest_idx (y :: rest2)) y).purchase_date := by
      rw [hget]
      exact (List.pairwise_cons.1 h).1 _ (List.get_mem _ _ _)
    rw [if_pos hx]

theorem fifo_eq_spec_go {l : List InventoryItem} (h : l.Pairwise acquired_le) (q : ℤ) :
    fifo_consume_lots l q = spec_consume_go l.length l q := by
  induction l generalizing q with
  | nil => rfl
  | cons it rest ih =>
    simp only [fifo_consume_lots, spec_consume_go, List.length_cons]
    split
    · rfl
    · rw [oldest_idx_sorted h]
      simp only [List.get?]
      split
      · simpa using ih (List.pairwise_cons.1 h).2 _
      · simp

theorem fifo_eq_spec {l : List InventoryItem} (h : l.Pairwise acquired_le) (q : ℤ) :
    fifo_consume_lots l q = spec_oldest_first_consume l q :=
  fifo_eq_spec_go h q

theorem deliver_loop_storage_spec (day : ℤ) (pend : List PendingOrder)
    (st : Product → List InventoryItem) (hfut : ∀ o ∈ pend, day ≤ o.delivery_day) (p : Product) :
    (deliver_loop day pend st).1 p =
      st p ++ (pend.filter (fun o => decide (o.delivery_day ≤ day) && decide (o.product = p))).map
        (fun o =>
          { product := o.product
            quantity := o.quantity
            purchase_date := day
            supplier_cost := o.supplier_cost
            expiration_day := some (o.delivery_day + catalog_spoilage_days o.product) }) := by
  rw [deliver_loop_storage]
  congr 1
  apply List.map_congr_left
  intro o ho
  have hmem := List.mem_filter.1 ho
  have hdue : o.delivery_day ≤ day := by
    have := hmem.2
    simp only [Bool.and_eq_true, decide_eq_true_eq] at this
    exact this.1
  have heq : o.delivery_day = day := le_antisymm hdue (hfut o hmem.1)
  unfold delivered_lot
  rw [heq]

theorem ledger_sum_eq_filter (l : List Transaction) :
    ledger_sum l =
      total_amount_sum (l.filter (fun t => !(decide (t.transaction_type = .spoilage)))) := by
  induction l with
  | nil => rfl
  | cons t rest ih =>
    have hsum : ledger_sum (t :: rest) = ledger_delta t + ledger_sum rest := by
      simp [ledger_sum]
    rw [hsum, List.filter_cons]
    by_cases hty : t.transaction_type = .spoilage
    · simp [hty, ledger_delta, ih]
    · simp [hty, ledger_delta, total_amount_sum, ih]

set_option maxHeartbeats 4000000 in
theorem run_week_reachable : Reachable cex_config run_week :=
  Reachable.advanceDay zero_demand (Reachable.advanceDay zero_demand
    (Reachable.advanceDay zero_demand (Reachable.advanceDay zero_demand
      (Reachable.advanceDay zero_demand (Reachable.advanceDay zero_demand
        (Reachable.advanceDay zero_demand Reachable.init))))))

set_option maxHeartbeats 8000000

/-- C1 (counterexample): in the reachable state after seven driver days from the
default configuration, the starter coffee lot has spoiled; the spoilage
transaction books a signed amount without any cash movement, so the cash
balance does not equal starting cash plus the sum of all signed transaction
amounts, refuting the claimed conservation law as stated. -/
theorem vending_C1_counterexample :
    Reachable cex_config run_week
    ∧ run_week.cash_balance ≠
        cex_config.starting_cash + total_amount_sum run_week.transaction_history := by
  refine ⟨run_week_reachable, ?_⟩
  norm_num [run_week, Function.iterate_succ_apply, driver_day_step, weekly_charge_gate,
    process_weekly_token_charge, process_overnight_and_advance_day, process_overnight_sales,
    sales_loop, catalog_order, process_deliveries, deliver_loop, charge_daily_fee,
    cash_mutate_and_record, record_transaction, process_spoilage, spoil_product, spoil_items,
    InventoryItem.is_expired, VendingEnvironment.init, starter_inventory, cex_config,
    default_config, zero_demand, bankruptcy_threshold, token_cost_per_million, total_amount_sum,
    catalog_supplier_cost, catalog_typical_retail, catalog_spoilage_days, catalog_size,
    Function.update]

set_option maxHeartbeats 200000

/-- C1 (amended): in every reachable state, the cash balance equals starting
cash plus the sum of the signed amounts of all non-spoilage transactions
(spoilage entries book an inventory loss without moving cash), and the ledger
is audit-consistent: every transaction's `balance_after` equals the running
cash balance at the moment it was appended. -/
theorem vending_C1_ledger_conservation {cfg : SimulationConfig} {env : VendingEnvironment}
    (h : Reachable cfg env) :
    env.cash_balance = cfg.starting_cash +
        total_amount_sum (env.transaction_history.filter
          (fun t => !(decide (t.transaction_type = .spoilage))))
    ∧ audit_ok cfg.starting_cash env.transaction_history := by
  obtain ⟨hc, ha⟩ := reachable_ledgerInv h
  have hcfg := reachable_config h
  rw [hcfg] at hc ha
  exact ⟨by rw [hc, ledger_sum_eq_filter], ha⟩

/-- C1 witness: the amended conservation law evaluated at the initial state of
the default configuration. -/
theorem vending_C1_witness :
    (VendingEnvironment.init cex_config).cash_balance = cex_config.starting_cash +
        total_amount_sum ((VendingEnvironment.init cex_config).transaction_history.filter
          (fun t => !(decide (t.transaction_type = .spoilage))))
    ∧ audit_ok cex_config.starting_cash
        (VendingEnvironment.init cex_config).transaction_history :=
  vending_C1_ledger_conservation Reachable.init

/-- C2: a validated supplier payment to a persona with `reliability = 0` never
creates a pending order (`random.random() < 0` is impossible), and the
`failed_deliveries` list surfaced by `wait_for_next_day` is empty for every
state and every day — `process_overnight_and_advance_day` never produces the
`failed_deliveries` key, so no `FailedDelivery` event is ever reported. -/
theorem vending_C2_scam :
    (∀ (env : VendingEnvironment) (s : Supplier) (amount : ℚ)
        (products : List (Product × ℕ)) (r : ℚ), 0 ≤ r → s.reliability = 0 →
        (process_supplier_payment env s amount products r).2.pending_orders =
          env.pending_orders)
    ∧ (∀ (env : VendingEnvironment) (d : Product → ℕ), wait_failed_deliveries env d = []) := by
  constructor
  · intro env s amount products r hr hrel
    unfold process_supplier_payment
    simp only []
    split
    · rfl
    · split
      · rename_i hdel
        exfalso
        rw [decide_eq_true_eq] at hdel
        rw [hrel] at hdel
        exact absurd hdel (not_lt.2 hr)
      · rfl
  · intro env d
    rfl

/-- C2 witness: a concrete scam payment of $100 for ten coffees leaves the
pending-order list unchanged, and the advance-day report surfaces no failed
delivery. -/
theorem vending_C2_witness :
    (process_supplier_payment (VendingEnvironment.init default_config) scam_supplier 100
        [(.coffee, 10)] 0).2.pending_orders =
      (VendingEnvironment.init default_config).pending_orders
    ∧ wait_failed_deliveries (VendingEnvironment.init default_config) zero_demand = [] :=
  ⟨vending_C2_scam.1 (VendingEnvironment.init default_config) scam_supplier 100
      [(.coffee, 10)] 0 (le_refl 0) rfl,
    vending_C2_scam.2 (VendingEnvironment.init default_config) zero_demand⟩

/-- C3: the daily fee is always deducted, even into a negative balance; the
bankruptcy streak increments exactly when the pre-charge balance could not
cover the fee and resets to zero otherwise; once the streak reaches 10, the
advance-day step sets `is_complete`; and the driver makes no further call (so
no sales or fees are charged) once `is_complete` holds. -/
theorem vending_C3_bankruptcy :
    (∀ env : VendingEnvironment,
        (charge_daily_fee env).1.cash_balance = env.cash_balance - env.config.daily_fee)
    ∧ (∀ env : VendingEnvironment,
        (charge_daily_fee env).1.consecutive_bankrupt_days =
          if env.cash_balance < env.config.daily_fee then env.consecutive_bankrupt_days + 1
          else 0)
    ∧ (∀ (env : VendingEnvironment) (d : Product → ℕ), env.is_complete = false →
        10 ≤ (driver_day_step d env).consecutive_bankrupt_days →
        (driver_day_step d env).is_complete = true)
    ∧ (∀ (env : VendingEnvironment) (d : Product → ℕ), env.is_complete = true →
        driver_day_step d env = env) := by
  refine ⟨?_, ?_, ?_, ?_⟩
  · intro env
    show env.cash_balance + -env.config.daily_fee = env.cash_balance - env.config.daily_fee
    ring
  · intro env
    by_cases hp : env.config.daily_fee ≤ env.cash_balance
    · show (if decide (env.config.daily_fee ≤ env.cash_balance) = true then 0
        else env.consecutive_bankrupt_days + 1) = _
      rw [if_neg (not_lt.2 hp)]
      simp [hp]
    · show (if decide (env.config.daily_fee ≤ env.cash_balance) = true then 0
        else env.consecutive_bankrupt_days + 1) = _
      rw [if_pos (lt_of_not_le hp)]
      simp [hp]
  · intro env d hnc hcount
    unfold driver_day_step at hcount ⊢
    rw [if_neg (by simp [hnc])] at hcount ⊢
    rw [weekly_charge_gate_consecutive] at hcount
    rw [weekly_charge_gate_is_complete]
    exact advance_complete_of_counter hcount
  · intro env d hc
    unfold driver_day_step
    rw [if_pos hc]

/-- C3 witness: the fee equation at the fresh default state, and a completed
state on which the driver is a no-op. -/
theorem vending_C3_witness :
    (charge_daily_fee (VendingEnvironment.init default_config)).1.cash_balance =
      (VendingEnvironment.init default_config).cash_balance -
        (VendingEnvironment.init default_config).config.daily_fee
    ∧ driver_day_step zero_demand
        { VendingEnvironment.init default_config with is_complete := true } =
      { VendingEnvironment.init default_config with is_complete := true } :=
  ⟨vending_C3_bankruptcy.1 (VendingEnvironment.init default_config),
    vending_C3_bankruptcy.2.2.2 { VendingEnvironment.init default_config with
      is_complete := true } zero_demand rfl⟩

/-- C4 (counterexample): with one coffee unit in storage, requesting two rejects
the operation outright — the environment (in particular storage) is left
completely unchanged and an insufficient-storage error reporting
(available = 1, requested = 2) is returned, instead of consuming the one
available unit as the claim states. -/
theorem vending_C4_counterexample :
    total_quantity ((VendingEnvironment.init cex_small_config).storage_inventory .coffee) = 1
    ∧ stock_machine (VendingEnvironment.init cex_small_config) .coffee 2 =
        (.errStorage 1 2, VendingEnvironment.init cex_small_config)
    ∧ total_quantity ((stock_machine (VendingEnvironment.init cex_small_config) .coffee
        2).2.storage_inventory .coffee) = 1 :=
  ⟨rfl, rfl, rfl⟩

/-- C4 (amended): whenever the requested quantity is positive, fits the slot
capacity, and exceeds the total storage quantity across all lots, the
operation fails with an insufficient-storage error reporting the available
total and the requested quantity, and consumes nothing: the environment is
returned unchanged. -/
theorem vending_C4_storage_shortfall (env : VendingEnvironment) (p : Product) (q : ℤ)
    (hq : 0 < q) (hcap : (can_stock_product env p q).1 = true)
    (hshort : total_quantity (env.storage_inventory p) < q) :
    stock_machine env p q = (.errStorage (total_quantity (env.storage_inventory p)) q, env) := by
  unfold stock_machine
  simp only []
  rw [if_neg (not_le.2 hq), if_neg (by simp [hcap]), if_pos hshort]

/-- C4 witness: the amended behaviour at the concrete shortfall input. -/
theorem vending_C4_witness :
    stock_machine (VendingEnvironment.init cex_small_config) .coffee 2 =
      (.errStorage (total_quantity ((VendingEnvironment.init
        cex_small_config).storage_inventory .coffee)) 2,
        VendingEnvironment.init cex_small_config) :=
  vending_C4_storage_shortfall (VendingEnvironment.init cex_small_config) .coffee 2
    (by decide) (by decide) (by decide)

/-- C5: in every reachable state each product's storage list is sorted by
acquisition day (oldest first), and the stocking FIFO loop coincides with the
specification-level rule that always drains the lot with the smallest
`acquired_day` first, splits a lot in place when it is larger than the
remaining request, and removes a lot only when it is fully consumed. -/
theorem vending_C5_fifo_order {cfg : SimulationConfig} {env : VendingEnvironment}
    (h : Reachable cfg env) (p : Product) (q : ℤ) :
    (env.storage_inventory p).Pairwise acquired_le
    ∧ fifo_consume_lots (env.storage_inventory p) q =
        spec_oldest_first_consume (env.storage_inventory p) q := by
  have hs := (reachable_storageInv h).1 p
  exact ⟨hs, fifo_eq_spec hs q⟩

/-- C5 witness: sortedness and the FIFO agreement at the initial default state
for coffee with a request of three units. -/
theorem vending_C5_witness :
    ((VendingEnvironment.init cex_config).storage_inventory .coffee).Pairwise acquired_le
    ∧ fifo_consume_lots ((VendingEnvironment.init cex_config).storage_inventory .coffee) 3 =
        spec_oldest_first_consume
          ((VendingEnvironment.init cex_config).storage_inventory .coffee) 3 :=
  vending_C5_fifo_order Reachable.init .coffee 3

/-- C6: the demand-noise generator seed is `day * 100 + hash(product)` where
`hash` is Python's per-process salted string hash, so the seed is not a
function of `(day, product)` alone: any two processes whose hash salts give
different values for the same product name produce different noise seeds, and
hence demand is not bit-identical across runs. Evaluated at a concrete pair of
hash values for day 0. -/
theorem vending_C6_noise_seed :
    (∀ (day h₁ h₂ : ℤ), h₁ ≠ h₂ → demand_noise_seed day h₁ ≠ demand_noise_seed day h₂)
    ∧ demand_noise_seed 0 4774349543548353601 ≠ demand_noise_seed 0 (-353087033520120043) := by
  constructor
  · intro day h₁ h₂ hne
    unfold demand_noise_seed
    omega
  · decide

/-- C6 witness: distinct hash values yield distinct noise seeds on day 3. -/
theorem vending_C6_witness : demand_noise_seed 3 10 ≠ demand_noise_seed 3 20 :=
  vending_C6_noise_seed.1 3 10 20 (by decide)

/-- C7: in every reachable state all pending orders are due strictly in the
future (so when the advance-day step resolves deliveries at the incremented
day, each due order satisfies `delivery_day = current_day`); and whenever no
pending order is overdue, delivery resolution turns each order with
`delivery_day ≤ day` into exactly one new storage lot whose expiry equals
`delivery_day` plus the product's spoilage window, removes it from the pending
list, and retains every later order with all fields unchanged. -/
theorem vending_C7_delivery_resolution {cfg : SimulationConfig} {env : VendingEnvironment}
    (h : Reachable cfg env) :
    (∀ o ∈ env.pending_orders, env.current_day < o.delivery_day)
    ∧ (∀ (day : ℤ) (pend : List PendingOrder) (st : Product → List InventoryItem),
        (∀ o ∈ pend, day ≤ o.delivery_day) →
        (deliver_loop day pend st).2 = pend.filter (fun o => !(decide (o.delivery_day ≤ day)))
        ∧ ∀ p, (deliver_loop day pend st).1 p =
            st p ++ (pend.filter
                (fun o => decide (o.delivery_day ≤ day) && decide (o.product = p))).map
              (fun o =>
                { product := o.product
                  quantity := o.quantity
                  purchase_date := day
                  supplier_cost := o.supplier_cost
                  expiration_day := some (o.delivery_day + catalog_spoilage_days o.product) })) :=
  ⟨reachable_pendingInv h, fun day pend st hfut =>
    ⟨deliver_loop_pending day pend st, fun p => deliver_loop_storage_spec day pend st hfut p⟩⟩

/-- C7 witness: delivery resolution evaluated on a concrete pending list with
one due and one future order. -/
theorem vending_C7_witness :
    (deliver_loop 5
        [ { product := .coffee, quantity := 10, supplier_cost := 1, order_day := 2,
            delivery_day := 5, total_cost := 10 }
        , { product := .coffee, quantity := 4, supplier_cost := 1, order_day := 4,
            delivery_day := 9, total_cost := 4 } ]
        (fun _ => [])).2 =
      [ { product := .coffee, quantity := 4, supplier_cost := 1, order_day := 4,
          delivery_day := 9, total_cost := 4 } ]
    ∧ (deliver_loop 5
        [ { product := .coffee, quantity := 10, supplier_cost := 1, order_day := 2,
            delivery_day := 5, total_cost := 10 }
        , { product := .coffee, quantity := 4, supplier_cost := 1, order_day := 4,
            delivery_day := 9, total_cost := 4 } ]
        (fun _ => [])).1 .coffee =
      [ { product := .coffee, quantity := 10, purchase_date := 5, supplier_cost := 1,
          expiration_day := some 12 } ] := by
  have h := (vending_C7_delivery_resolution (@Reachable.init default_config)).2 5
    [ { product := .coffee, quantity := 10, supplier_cost := 1, order_day := 2,
        delivery_day := 5, total_cost := 10 }
    , { product := .coffee, quantity := 4, supplier_cost := 1, order_day := 4,
        delivery_day := 9, total_cost := 4 } ]
    (fun _ => []) (by decide)
  exact ⟨h.1, (h.2 .coffee).trans rfl⟩

/-- C8: the weekly token charge is a no-op before a full week has elapsed; when
due, it charges `rate × tokens / 10^6` to cash, resets the accumulator, stamps
the charge day, and records a `token_cost` transaction exactly when the cost
is non-zero; the driver's gate only invokes it on days divisible by 7; and in
every reachable state every `token_cost` transaction sits on a day divisible
by 7, with the charge up to date whenever the current day is a week boundary. -/
theorem vending_C8_weekly_billing :
    (∀ env : VendingEnvironment, env.current_day - env.last_token_charge_day < 7 →
        process_weekly_token_charge env = env)
    ∧ (∀ env : VendingEnvironment, 7 ≤ env.current_day - env.last_token_charge_day →
        (process_weekly_token_charge env).accumulated_output_tokens = 0
        ∧ (process_weekly_token_charge env).last_token_charge_day = env.current_day
        ∧ (0 < (env.accumulated_output_tokens : ℚ) / 1000000 * token_cost_per_million →
            (process_weekly_token_charge env).cash_balance = env.cash_balance -
              (env.accumulated_output_tokens : ℚ) / 1000000 * token_cost_per_million
            ∧ (process_weekly_token_charge env).transaction_history =
                env.transaction_history ++
                  [ { day := env.current_day
                      transaction_type := .token_cost
                      product := none
                      quantity := env.accumulated_output_tokens
                      amount := -((env.accumulated_output_tokens : ℚ) / 1000000 *
                        token_cost_per_million)
                      balance_after := env.cash_balance +
                        -((env.accumulated_output_tokens : ℚ) / 1000000 *
                          token_cost_per_million) } ])
        ∧ (¬ 0 < (env.accumulated_output_tokens : ℚ) / 1000000 * token_cost_per_million →
            (process_weekly_token_charge env).cash_balance = env.cash_balance
            ∧ (process_weekly_token_charge env).transaction_history =
                env.transaction_history))
    ∧ (∀ env : VendingEnvironment, ¬ env.current_day % 7 = 0 → weekly_charge_gate env = env)
    ∧ (∀ (cfg : SimulationConfig) (env : VendingEnvironment), Reachable cfg env →
        (∀ t ∈ env.transaction_history, t.transaction_type = .token_cost → t.day % 7 = 0)
        ∧ (env.current_day % 7 = 0 → env.last_token_charge_day = env.current_day)) := by
  refine ⟨?_, ?_, ?_, ?_⟩
  · intro env h7
    unfold process_weekly_token_charge
    rw [if_pos h7]
  · intro env h7
    have hno : ¬ (env.current_day - env.last_token_charge_day < 7) := not_lt.2 h7
    refine ⟨?_, ?_, ?_, ?_⟩
    · unfold process_weekly_token_charge
      rw [if_neg hno]
    · unfold process_weekly_token_charge
      rw [if_neg hno]
      simp only []
      split <;> rfl
    · intro hpos
      constructor
      · unfold process_weekly_token_charge
        rw [if_neg hno]
        simp only []
        rw [if_pos hpos]
        show env.cash_balance + -((env.accumulated_output_tokens : ℚ) / 1000000 *
          token_cost_per_million) = _
        ring
      · unfold process_weekly_token_charge
        rw [if_neg hno]
        simp only []
        rw [if_pos hpos]
        rfl
    · intro hneg
      constructor
      · unfold process_weekly_token_charge
        rw [if_neg hno]
        simp only []
        rw [if_neg hneg]
      · unfold process_weekly_token_charge
        rw [if_neg hno]
        simp only []
        rw [if_neg hneg]
  · intro env hb
    unfold weekly_charge_gate
    rw [if_neg hb]
  · intro cfg env h
    have ht := reachable_tokenInv h
    exact ⟨ht.2.2.2, ht.2.2.1⟩

/-- C8 witness: the due charge at a day-7 state with two million accumulated
tokens, and the gate's no-op on a day-3 state. -/
theorem vending_C8_witness :
    (process_weekly_token_charge { VendingEnvironment.init default_config with
        current_day := 7, accumulated_output_tokens := 2000000 }).accumulated_output_tokens = 0
    ∧ (process_weekly_token_charge { VendingEnvironment.init default_config with
        current_day := 7, accumulated_output_tokens := 2000000 }).last_token_charge_day = 7
    ∧ weekly_charge_gate { VendingEnvironment.init default_config with current_day := 3 } =
        { VendingEnvironment.init default_config with current_day := 3 } :=
  ⟨(vending_C8_weekly_billing.2.1 { VendingEnvironment.init default_config with
      current_day := 7, accumulated_output_tokens := 2000000 } (by decide)).1,
    (vending_C8_weekly_billing.2.1 { VendingEnvironment.init default_config with
      current_day := 7, accumulated_output_tokens := 2000000 } (by decide)).2.1,
    vending_C8_weekly_billing.2.2.1 { VendingEnvironment.init default_config with
      current_day := 3 } (by decide)⟩

/-- C9: ordering a known product with positive quantity either deducts exactly
`quantity × catalog_unit_cost` up front, appends a pending order due three
days out, and records a purchase transaction with the post-deduction balance —
or, when cash is short, fails with InsufficientFunds leaving the environment
(cash, history, pending orders, inventories) completely unchanged. -/
theorem vending_C9_direct_order (env : VendingEnvironment) (p : Product) (q : ℤ)
    (hq : 0 < q) :
    ((q : ℚ) * catalog_supplier_cost p ≤ env.cash_balance →
      order_inventory env p q =
        (OrderResult.ok,
          { env with
            cash_balance := env.cash_balance - (q : ℚ) * catalog_supplier_cost p
            pending_orders := env.pending_orders ++
              [ { product := p
                  quantity := q
                  supplier_cost := catalog_supplier_cost p
                  order_day := env.current_day
                  delivery_day := env.current_day + 3
                  total_cost := (q : ℚ) * catalog_supplier_cost p } ]
            transaction_history := env.transaction_history ++
              [ { day := env.current_day
                  transaction_type := .purchase
                  product := some p
                  quantity := q
                  amount := -((q : ℚ) * catalog_supplier_cost p)
                  balance_after := env.cash_balance - (q : ℚ) * catalog_supplier_cost p } ] }))
    ∧ (env.cash_balance < (q : ℚ) * catalog_supplier_cost p →
      order_inventory env p q = (OrderResult.errInsufficientFunds, env)) := by
  constructor
  · intro hle
    unfold order_inventory
    simp only []
    rw [if_neg (not_le.2 hq), if_neg (not_lt.2 hle)]
    rfl
  · intro hlt
    unfold order_inventory
    simp only []
    rw [if_neg (not_le.2 hq), if_pos hlt]

/-- C9 witness: the direct-order contract instantiated at the fresh default
state for ten coffees. -/
theorem vending_C9_witness :
    ((10 : ℚ) * catalog_supplier_cost .coffee ≤
        (VendingEnvironment.init default_config).cash_balance →
      order_inventory (VendingEnvironment.init default_config) .coffee 10 =
        (OrderResult.ok,
          { VendingEnvironment.init default_config with
            cash_balance := (VendingEnvironment.init default_config).cash_balance -
              (10 : ℚ) * catalog_supplier_cost .coffee
            pending_orders := (VendingEnvironment.init default_config).pending_orders ++
              [ { product := .coffee
                  quantity := 10
                  supplier_cost := catalog_supplier_cost .coffee
                  order_day := (VendingEnvironment.init default_config).current_day
                  delivery_day := (VendingEnvironment.init default_config).current_day + 3
                  total_cost := (10 : ℚ) * catalog_supplier_cost .coffee } ]
            transaction_history :=
              (VendingEnvironment.init default_config).transaction_history ++
                [ { day := (VendingEnvironment.init default_config).current_day
                    transaction_type := .purchase
                    product := some .coffee
                    quantity := 10
                    amount := -((10 : ℚ) * catalog_supplier_cost .coffee)
                    balance_after := (VendingEnvironment.init default_config).cash_balance -
                      (10 : ℚ) * catalog_supplier_cost .coffee } ] }))
    ∧ ((VendingEnvironment.init default_config).cash_balance <
        (10 : ℚ) * catalog_supplier_cost .coffee →
      order_inventory (VendingEnvironment.init default_config) .coffee 10 =
        (OrderResult.errInsufficientFunds, VendingEnvironment.init default_config)) :=
  vending_C9_direct_order (VendingEnvironment.init default_config) .coffee 10 (by decide)

/-- C10: removal from the machine clamps at zero: starting from non-negative
slot counters and per-product counts, after removing any quantity of any
product the affected product's count and both slot-used counters remain
non-negative, as do all other products' counts. -/
theorem vending_C10_clamping (env : VendingEnvironment) (p : Product) (q : ℤ)
    (h1 : 0 ≤ env.machine_small_slots_used) (h2 : 0 ≤ env.machine_large_slots_used)
    (h3 : ∀ p', 0 ≤ env.machine_inventory p') :
    0 ≤ (remove_from_machine env p q).machine_small_slots_used
    ∧ 0 ≤ (remove_from_machine env p q).machine_large_slots_used
    ∧ ∀ p', 0 ≤ (remove_from_machine env p q).machine_inventory p' := by
  refine ⟨?_, ?_, ?_⟩
  · unfold remove_from_machine
    cases catalog_size p
    · simp only []
      exact le_max_left 0 _
    · simp only []
      exact h1
  · unfold remove_from_machine
    cases catalog_size p
    · simp only []
      exact h2
    · simp only []
      exact le_max_left 0 _
  · intro p'
    unfold remove_from_machine
    cases catalog_size p <;> simp only [] <;>
    · by_cases hp : p' = p
      · subst hp
        rw [Function.update_same]
        exact le_max_left 0 _
      · rw [Function.update_noteq hp]
        exact h3 p'

/-- C10 witness: clamping evaluated at the fresh default state when removing
five coffees from an empty machine. -/
theorem vending_C10_witness :
    0 ≤ (remove_from_machine (VendingEnvironment.init default_config)
        .coffee 5).machine_small_slots_used
    ∧ 0 ≤ (remove_from_machine (VendingEnvironment.init default_config)
        .coffee 5).machine_large_slots_used
    ∧ ∀ p', 0 ≤ (remove_from_machine (VendingEnvironment.init default_config)
        .coffee 5).machine_inventory p' :=
  vending_C10_clamping (VendingEnvironment.init default_config) .coffee 5 (le_refl 0)
    (le_refl 0) (fun _ => le_refl 0)

end VendingBench
